import Mathlib

/-!
# Loader heap ownership wrappers (`src/coreclr/inc/loaderheap.h`)

A shallow embedding of the inline code of `loaderheap.h`: `TaggedMemAllocPtr`,
the locked entry points of `LoaderHeap` and `InterleavedLoaderHeap`,
`AllocMemHolder` and `GetStubCodePageSize`.

Conventions.
* Pointers and `size_t` values are natural numbers; arithmetic the source performs
  on them is reduced modulo `2 ^ bits`, where `bits` is the pointer width of the target.
  The null pointer is `0`.
* The unlocked engine (`UnlockedAllocMem`, `UnlockedBackoutMem`, ...) is only declared
  in the header. It is a parameter of the model: a record of state transformers over
  an arbitrary engine state `σ`. Every call the wrappers make to it is also appended
  to a call log.
* `_ASSERTE` is checked when the build flag `debug` (the `_DEBUG` define) is set and
  is a no-op otherwise. The `_DEBUG`-only file/line fields carry no behaviour and are
  left out.
* The embedding is sequential. The `CRITSEC_Holder` each locked entry point takes around
  its engine call is left out of the entry points first given and is put back in the
  section on the critical section, as the order of events of one call.
-/

namespace LoaderHeapModel

/-! ## Machine arithmetic -/

/-- Pointer plus byte offset, `(BYTE*)p + n`, on a target with `bits`-wide pointers. -/
def ptrAdd (bits p n : Nat) : Nat := (p + n) % 2 ^ bits

/-- Pointer minus byte offset, `(BYTE*)p - n`, on a target with `bits`-wide pointers. -/
def ptrSub (bits p n : Nat) : Nat := (p + (2 ^ bits - n % 2 ^ bits)) % 2 ^ bits

/-- Addition of two `size_t` values. -/
def sizeAdd (bits a b : Nat) : Nat := (a + b) % 2 ^ bits

/-! ## `TaggedMemAllocPtr` -/

/-- The struct `TaggedMemAllocPtr`: everything needed to back out an allocation.
`m_pHeap` is the address of the `ILoaderHeapBackout` that produced the block. -/
structure TaggedMemAllocPtr where
  m_pMem : Nat
  m_dwRequestedSize : Nat
  m_pHeap : Nat
  m_dwExtra : Nat
  deriving DecidableEq, Repr

/-- The conversion `operator void*() const`: `(void*)(m_dwExtra + (BYTE*)m_pMem)`. -/
def TaggedMemAllocPtr.toVoidPtr (bits : Nat) (t : TaggedMemAllocPtr) : Nat :=
  ptrAdd bits t.m_pMem t.m_dwExtra

/-! ## The unlocked engines (declared in the header, defined elsewhere) -/

/-- One call made to an unlocked engine entry point, with its arguments. -/
inductive UnlockedCall where
  | UnlockedAllocMem (dwSize : Nat)
  | UnlockedAllocMem_NoThrow (dwSize : Nat)
  | UnlockedAllocAlignedMem (dwRequestedSize dwAlignment : Nat)
  | UnlockedAllocAlignedMem_NoThrow (dwRequestedSize dwAlignment : Nat)
  | UnlockedBackoutMem (pMem dwSize : Nat)
  | UnlockedAllocStub
  | UnlockedBackoutStub (pMem : Nat)
  deriving DecidableEq, Repr

/-- The entry points of `UnlockedLoaderHeap` that `LoaderHeap` wraps, as transformers of
an engine state `σ`. A throwing entry point returns `none` when it throws out-of-memory;
an aligned entry point returns the aligned pointer together with `*pdwExtra`. -/
structure UnlockedLoaderHeap (σ : Type) where
  UnlockedAllocMem : Nat → σ → Option Nat × σ
  UnlockedAllocMem_NoThrow : Nat → σ → Nat × σ
  UnlockedAllocAlignedMem : Nat → Nat → σ → Option (Nat × Nat) × σ
  UnlockedAllocAlignedMem_NoThrow : Nat → Nat → σ → (Nat × Nat) × σ
  UnlockedBackoutMem : Nat → Nat → σ → σ

/-- The entry points of `UnlockedInterleavedLoaderHeap` that `InterleavedLoaderHeap` wraps. -/
structure UnlockedInterleavedLoaderHeap (σ : Type) where
  UnlockedAllocStub : σ → Option Nat × σ
  UnlockedBackoutStub : Nat → σ → σ

/-- A heap object at run time: the engine state plus the log of engine calls made so far. -/
structure Heap (σ : Type) where
  state : σ
  calls : List UnlockedCall

/-- Record one engine call: new engine state, call appended to the log. -/
def Heap.record {σ : Type} (h : Heap σ) (s : σ) (c : UnlockedCall) : Heap σ :=
  ⟨s, h.calls ++ [c]⟩

/-- How an entry point can fail to return. -/
inductive Failure where
  | OutOfMemory
  | AssertionFailed
  deriving DecidableEq, Repr

/-- The checked size type `S_SIZE_T` (declared outside this header): a `size_t` value
and an overflow flag. -/
structure S_SIZE_T where
  m_value : Nat
  m_overflow : Bool
  deriving DecidableEq, Repr

/-- The accessor `S_SIZE_T::IsOverflow()`. -/
def S_SIZE_T.IsOverflow (s : S_SIZE_T) : Bool := s.m_overflow

/-- The accessor `S_SIZE_T::Value()`, taken as a plain read of the stored value. -/
def S_SIZE_T.Value (s : S_SIZE_T) : Nat := s.m_value

/-! ## `LoaderHeap` -/

/-- The method `LoaderHeap::RealAllocMemUnsafe`. -/
def LoaderHeap.RealAllocMemUnsafe {σ : Type} (eng : UnlockedLoaderHeap σ) (this : Nat)
    (dwSize : Nat) (h : Heap σ) : Except Failure TaggedMemAllocPtr × Heap σ :=
  match eng.UnlockedAllocMem dwSize h.state with
  | (none, s) => (.error .OutOfMemory, h.record s (.UnlockedAllocMem dwSize))
  | (some pResult, s) =>
    (.ok { m_pMem := pResult, m_dwRequestedSize := dwSize, m_pHeap := this, m_dwExtra := 0 },
     h.record s (.UnlockedAllocMem dwSize))

/-- The method `LoaderHeap::RealAllocMemUnsafe_NoThrow`. -/
def LoaderHeap.RealAllocMemUnsafe_NoThrow {σ : Type} (eng : UnlockedLoaderHeap σ) (this : Nat)
    (dwSize : Nat) (h : Heap σ) : Except Failure TaggedMemAllocPtr × Heap σ :=
  match eng.UnlockedAllocMem_NoThrow dwSize h.state with
  | (pResult, s) =>
    (.ok { m_pMem := pResult, m_dwRequestedSize := dwSize, m_pHeap := this, m_dwExtra := 0 },
     h.record s (.UnlockedAllocMem_NoThrow dwSize))

/-- The method `LoaderHeap::RealAllocMem`. -/
def LoaderHeap.RealAllocMem {σ : Type} (eng : UnlockedLoaderHeap σ) (this : Nat)
    (dwSize : S_SIZE_T) (h : Heap σ) : Except Failure TaggedMemAllocPtr × Heap σ :=
  if dwSize.IsOverflow then (.error .OutOfMemory, h)
  else LoaderHeap.RealAllocMemUnsafe eng this dwSize.Value h

/-- The method `LoaderHeap::RealAllocMem_NoThrow`. -/
def LoaderHeap.RealAllocMem_NoThrow {σ : Type} (eng : UnlockedLoaderHeap σ) (this : Nat)
    (dwSize : S_SIZE_T) (h : Heap σ) : Except Failure TaggedMemAllocPtr × Heap σ :=
  if dwSize.IsOverflow then
    (.ok { m_pMem := 0, m_dwRequestedSize := dwSize.Value, m_pHeap := this, m_dwExtra := 0 }, h)
  else LoaderHeap.RealAllocMemUnsafe_NoThrow eng this dwSize.Value h

/-- The method `LoaderHeap::RealAllocAlignedMem`. -/
def LoaderHeap.RealAllocAlignedMem {σ : Type} (bits : Nat) (eng : UnlockedLoaderHeap σ)
    (this : Nat) (dwRequestedSize dwAlignment : Nat) (h : Heap σ) :
    Except Failure TaggedMemAllocPtr × Heap σ :=
  match eng.UnlockedAllocAlignedMem dwRequestedSize dwAlignment h.state with
  | (none, s) =>
    (.error .OutOfMemory, h.record s (.UnlockedAllocAlignedMem dwRequestedSize dwAlignment))
  | (some (pResult, dwExtra), s) =>
    (.ok { m_pMem := ptrSub bits pResult dwExtra,
           m_dwRequestedSize := sizeAdd bits dwRequestedSize dwExtra,
           m_pHeap := this,
           m_dwExtra := dwExtra },
     h.record s (.UnlockedAllocAlignedMem dwRequestedSize dwAlignment))

/-- The method `LoaderHeap::RealAllocAlignedMem_NoThrow`; the `_ASSERTE` is checked in
debug builds only. -/
def LoaderHeap.RealAllocAlignedMem_NoThrow {σ : Type} (debug : Bool) (bits : Nat)
    (eng : UnlockedLoaderHeap σ) (this : Nat) (dwRequestedSize dwAlignment : Nat)
    (h : Heap σ) : Except Failure TaggedMemAllocPtr × Heap σ :=
  match eng.UnlockedAllocAlignedMem_NoThrow dwRequestedSize dwAlignment h.state with
  | ((pResult, dwExtra), s) =>
    if debug && (pResult == 0 && dwExtra != 0) then
      (.error .AssertionFailed,
       h.record s (.UnlockedAllocAlignedMem_NoThrow dwRequestedSize dwAlignment))
    else
      (.ok { m_pMem := ptrSub bits pResult dwExtra,
             m_dwRequestedSize := sizeAdd bits dwRequestedSize dwExtra,
             m_pHeap := this,
             m_dwExtra := dwExtra },
       h.record s (.UnlockedAllocAlignedMem_NoThrow dwRequestedSize dwAlignment))

/-- The method `LoaderHeap::RealBackoutMem`. -/
def LoaderHeap.RealBackoutMem {σ : Type} (eng : UnlockedLoaderHeap σ)
    (pMem dwSize : Nat) (h : Heap σ) : Heap σ :=
  h.record (eng.UnlockedBackoutMem pMem dwSize h.state) (.UnlockedBackoutMem pMem dwSize)

/-! ## `InterleavedLoaderHeap` -/

/-- The method `InterleavedLoaderHeap::RealAllocStub`. -/
def InterleavedLoaderHeap.RealAllocStub {σ : Type} (eng : UnlockedInterleavedLoaderHeap σ)
    (this : Nat) (h : Heap σ) : Except Failure TaggedMemAllocPtr × Heap σ :=
  match eng.UnlockedAllocStub h.state with
  | (none, s) => (.error .OutOfMemory, h.record s .UnlockedAllocStub)
  | (some pResult, s) =>
    (.ok { m_pMem := pResult, m_dwRequestedSize := 1, m_pHeap := this, m_dwExtra := 0 },
     h.record s .UnlockedAllocStub)

/-- The method `InterleavedLoaderHeap::RealBackoutMem`: `dwSize` is not used. -/
def InterleavedLoaderHeap.RealBackoutMem {σ : Type} (eng : UnlockedInterleavedLoaderHeap σ)
    (pMem _dwSize : Nat) (h : Heap σ) : Heap σ :=
  h.record (eng.UnlockedBackoutStub pMem h.state) (.UnlockedBackoutStub pMem)

/-! ## `AllocMemHolder` -/

/-- The class `AllocMemHolder<TYPE>`: a tagged result and the acquired flag. -/
structure AllocMemHolder where
  m_value : TaggedMemAllocPtr
  m_fAcquired : Bool
  deriving DecidableEq, Repr

/-- One virtual call `pHeap->RealBackoutMem(pMem, dwSize)`. -/
structure BackoutCall where
  pHeap : Nat
  pMem : Nat
  dwSize : Nat
  deriving DecidableEq, Repr

/-- The default constructor `AllocMemHolder()`. -/
def AllocMemHolder.ctorDefault : AllocMemHolder :=
  { m_value := { m_pMem := 0, m_dwRequestedSize := 0, m_pHeap := 0, m_dwExtra := 0 },
    m_fAcquired := false }

/-- The constructor `AllocMemHolder(const TaggedMemAllocPtr value)`. -/
def AllocMemHolder.ctor (value : TaggedMemAllocPtr) : AllocMemHolder :=
  { m_value := value, m_fAcquired := true }

/-- The destructor `~AllocMemHolder()`: the list of `RealBackoutMem` calls it makes. -/
def AllocMemHolder.dtor (h : AllocMemHolder) : List BackoutCall :=
  if h.m_fAcquired && h.m_value.m_pMem != 0 then
    [{ pHeap := h.m_value.m_pHeap, pMem := h.m_value.m_pMem,
       dwSize := h.m_value.m_dwRequestedSize }]
  else []

/-- The assignment `operator=(const TaggedMemAllocPtr & value)`; the `_ASSERTE` against a
repeated assignment is checked in debug builds only. -/
def AllocMemHolder.assign (debug : Bool) (h : AllocMemHolder) (value : TaggedMemAllocPtr) :
    Except Failure AllocMemHolder :=
  if debug && !(h.m_value.m_pMem == 0 && !h.m_fAcquired) then .error .AssertionFailed
  else .ok { m_value := value, m_fAcquired := true }

/-- The method `AllocMemHolder::SuppressRelease`. -/
def AllocMemHolder.SuppressRelease (h : AllocMemHolder) : AllocMemHolder :=
  { h with m_fAcquired := false }

/-- The conversion `operator TYPE*()`: `(TYPE*)(void*)m_value`. -/
def AllocMemHolder.toPtr (bits : Nat) (h : AllocMemHolder) : Nat :=
  h.m_value.toVoidPtr bits

/-- The operator `operator!()`: `m_value.m_pMem == NULL`. -/
def AllocMemHolder.isNull (h : AllocMemHolder) : Bool :=
  h.m_value.m_pMem == 0

/-! ## Programs over holders

Holders are stack objects: each one is constructed once, used, and destroyed once. A
program is a sequence of the operations the class makes public, each naming the holder
object it acts on. Copy construction and holder-to-holder assignment are private in the
class and therefore are not operations here. -/

/-- The public operations of `AllocMemHolder`, applied to the holder object `id`. -/
inductive HolderOp where
  | ctorDefault (id : Nat)
  | ctor (id : Nat) (value : TaggedMemAllocPtr)
  | assign (id : Nat) (value : TaggedMemAllocPtr)
  | SuppressRelease (id : Nat)
  | dtor (id : Nat)
  deriving DecidableEq, Repr

/-- Why a program stops: an `_ASSERTE` fired, or the program is not a C++ program
(an object constructed twice, or used when it is not alive). -/
inductive Fault where
  | AssertionFailed
  | IllFormed
  deriving DecidableEq, Repr

/-- The live holder objects and the `RealBackoutMem` calls made so far, oldest first. -/
structure Scope where
  holders : List (Nat × AllocMemHolder)
  backouts : List BackoutCall
  deriving DecidableEq, Repr

/-- No holder alive, no backout made. -/
def Scope.empty : Scope := { holders := [], backouts := [] }

/-- The live holder object named `id`, if any. -/
def findHolder (id : Nat) : List (Nat × AllocMemHolder) → Option AllocMemHolder
  | [] => none
  | (k, h) :: rest => if k = id then some h else findHolder id rest

/-- Store `h` into the live holder object named `id`. -/
def setHolder (id : Nat) (h : AllocMemHolder) :
    List (Nat × AllocMemHolder) → List (Nat × AllocMemHolder)
  | [] => []
  | (k, x) :: rest => if k = id then (k, h) :: rest else (k, x) :: setHolder id h rest

/-- End the lifetime of the holder object named `id`. -/
def dropHolder (id : Nat) : List (Nat × AllocMemHolder) → List (Nat × AllocMemHolder)
  | [] => []
  | (k, x) :: rest => if k = id then rest else (k, x) :: dropHolder id rest

/-- Execute one holder operation. -/
def step (debug : Bool) (sc : Scope) : HolderOp → Except Fault Scope
  | .ctorDefault id =>
    match findHolder id sc.holders with
    | some _ => .error .IllFormed
    | none => .ok { sc with holders := (id, AllocMemHolder.ctorDefault) :: sc.holders }
  | .ctor id value =>
    match findHolder id sc.holders with
    | some _ => .error .IllFormed
    | none => .ok { sc with holders := (id, AllocMemHolder.ctor value) :: sc.holders }
  | .assign id value =>
    match findHolder id sc.holders with
    | none => .error .IllFormed
    | some h =>
      match h.assign debug value with
      | .error _ => .error .AssertionFailed
      | .ok h' => .ok { sc with holders := setHolder id h' sc.holders }
  | .SuppressRelease id =>
    match findHolder id sc.holders with
    | none => .error .IllFormed
    | some h => .ok { sc with holders := setHolder id h.SuppressRelease sc.holders }
  | .dtor id =>
    match findHolder id sc.holders with
    | none => .error .IllFormed
    | some h =>
      .ok { holders := dropHolder id sc.holders, backouts := sc.backouts ++ h.dtor }

/-- Execute a sequence of holder operations, stopping at the first fault. -/
def run (debug : Bool) : Scope → List HolderOp → Except Fault Scope
  | sc, [] => .ok sc
  | sc, op :: ops =>
    match step debug sc op with
    | .error e => .error e
    | .ok sc' => run debug sc' ops

/-- The block a tagged result denotes to its heap: what an armed holder passes to
`RealBackoutMem`. -/
def TaggedMemAllocPtr.block (t : TaggedMemAllocPtr) : BackoutCall :=
  { pHeap := t.m_pHeap, pMem := t.m_pMem, dwSize := t.m_dwRequestedSize }

/-- Number of operations of a program that hand a tagged result for block `c` to a holder
(by construction or by assignment). -/
def handOvers (c : BackoutCall) : List HolderOp → Nat
  | [] => 0
  | .ctor _ value :: ops => (if value.block = c then 1 else 0) + handOvers c ops
  | .assign _ value :: ops => (if value.block = c then 1 else 0) + handOvers c ops
  | _ :: ops => handOvers c ops

/-- Number of live holders that are armed for block `c`, that is, whose destructor would
back out `c`. -/
def armedFor (c : BackoutCall) : List (Nat × AllocMemHolder) → Nat
  | [] => 0
  | (_, h) :: rest => h.dtor.count c + armedFor c rest

/-! ## `GetStubCodePageSize` -/

/-- The target defines tested by `GetStubCodePageSize`. -/
structure TargetDefines where
  TARGET_ARM64 : Bool
  TARGET_UNIX : Bool
  TARGET_WASM : Bool
  TARGET_ARM : Bool
  deriving DecidableEq, Repr

/-- The function `GetStubCodePageSize`, returning `UINT32`; `osPageSize` is the value of
`GetOsPageSize()`. -/
def GetStubCodePageSize (t : TargetDefines) (osPageSize : Nat) : Nat :=
  if (t.TARGET_ARM64 && t.TARGET_UNIX) || t.TARGET_WASM then
    (max (16 * 1024) osPageSize) % 2 ^ 32
  else if t.TARGET_ARM then 4096
  else 16 * 1024

/-- Index of the OS page an address lies on. -/
def osPageOf (osPageSize addr : Nat) : Nat := addr / osPageSize

/-- Address of the data slot paired with the code slot at `pCode`: `GetStubCodePageSize()`
bytes further on. -/
def stubDataSlot (t : TargetDefines) (osPageSize pCode : Nat) : Nat :=
  pCode + GetStubCodePageSize t osPageSize

/-! ## Example engines used to instantiate the theorems -/

/-- A bump engine over a cursor: every allocation succeeds at the cursor and advances it;
aligned allocations round the cursor up. Backout does nothing. -/
def bumpEngine : UnlockedLoaderHeap Nat where
  UnlockedAllocMem := fun n s => (some s, s + n)
  UnlockedAllocMem_NoThrow := fun n s => (s, s + n)
  UnlockedAllocAlignedMem := fun n a s =>
    (some ((s + (a - 1)) / a * a, (s + (a - 1)) / a * a - s), (s + (a - 1)) / a * a + n)
  UnlockedAllocAlignedMem_NoThrow := fun n a s =>
    (((s + (a - 1)) / a * a, (s + (a - 1)) / a * a - s), (s + (a - 1)) / a * a + n)
  UnlockedBackoutMem := fun _ _ s => s

/-- A stub engine over a cursor handing out 24-byte stubs. -/
def bumpStubEngine : UnlockedInterleavedLoaderHeap Nat where
  UnlockedAllocStub := fun s => (some s, s + 24)
  UnlockedBackoutStub := fun _ s => s

end LoaderHeapModel

namespace LoaderHeapModel

/-! ## The critical section of the locked heaps

The entry points above leave out the `CRITSEC_Holder csh(m_CriticalSection)` local each
of them declares. Here it is put back: an entry point of a heap object with a critical
section cookie runs the body given above inside the scope of the holder. `CRITSEC_Holder`
itself is declared outside the header; all that is recorded of it is that it is
constructed on a cookie and destroyed when its scope is left, by return or by throw. -/

/-- What a locked entry point does, in program order. -/
inductive HeapEvent where
  | HolderCtor (cs : Nat)
  | Engine (c : UnlockedCall)
  | HolderDtor (cs : Nat)
  deriving DecidableEq, Repr

/-- A `LoaderHeap` or `InterleavedLoaderHeap` object: its `m_CriticalSection` cookie
(`0` is `NULL`), the engine state, and the events so far. -/
structure LockedHeap (σ : Type) where
  m_CriticalSection : Nat
  state : σ
  events : List HeapEvent

/-- The constructors of `LoaderHeap`: the base engine is constructed (state `s`) and
`m_CriticalSection(fUnlocked ? NULL : CreateLoaderHeapLock())`. -/
def LoaderHeap.ctor {σ : Type} (s : σ) (fUnlocked : Bool) (CreateLoaderHeapLock : Nat) :
    LockedHeap σ :=
  { m_CriticalSection := if fUnlocked then 0 else CreateLoaderHeapLock,
    state := s, events := [] }

/-- The constructor of `InterleavedLoaderHeap`:
`m_CriticalSection(fUnlocked ? NULL : CreateLoaderHeapLock())`. -/
def InterleavedLoaderHeap.ctor {σ : Type} (s : σ) (fUnlocked : Bool)
    (CreateLoaderHeapLock : Nat) : LockedHeap σ :=
  { m_CriticalSection := if fUnlocked then 0 else CreateLoaderHeapLock,
    state := s, events := [] }

/-- The scope of a local `CRITSEC_Holder csh(m_CriticalSection)`: the holder is
constructed, the body runs and makes its engine calls, and the holder is destroyed when
the scope is left, whatever the body's outcome. -/
def CRITSEC_Holder.scope {σ α : Type} (h : LockedHeap σ) (body : Heap σ → α × Heap σ) :
    α × LockedHeap σ :=
  let r := body ⟨h.state, []⟩
  (r.1,
   { m_CriticalSection := h.m_CriticalSection,
     state := r.2.state,
     events := h.events ++ [.HolderCtor h.m_CriticalSection] ++ r.2.calls.map .Engine
                 ++ [.HolderDtor h.m_CriticalSection] })

/-- The method `LoaderHeap::RealAllocMemUnsafe`, with its holder. -/
def Locked.LoaderHeap.RealAllocMemUnsafe {σ : Type} (eng : UnlockedLoaderHeap σ) (this : Nat)
    (dwSize : Nat) (h : LockedHeap σ) : Except Failure TaggedMemAllocPtr × LockedHeap σ :=
  CRITSEC_Holder.scope h (LoaderHeapModel.LoaderHeap.RealAllocMemUnsafe eng this dwSize)

/-- The method `LoaderHeap::RealAllocMemUnsafe_NoThrow`, with its holder. -/
def Locked.LoaderHeap.RealAllocMemUnsafe_NoThrow {σ : Type} (eng : UnlockedLoaderHeap σ)
    (this : Nat) (dwSize : Nat) (h : LockedHeap σ) :
    Except Failure TaggedMemAllocPtr × LockedHeap σ :=
  CRITSEC_Holder.scope h (LoaderHeapModel.LoaderHeap.RealAllocMemUnsafe_NoThrow eng this dwSize)

/-- The method `LoaderHeap::RealAllocMem`: the overflow test comes before any holder. -/
def Locked.LoaderHeap.RealAllocMem {σ : Type} (eng : UnlockedLoaderHeap σ) (this : Nat)
    (dwSize : S_SIZE_T) (h : LockedHeap σ) : Except Failure TaggedMemAllocPtr × LockedHeap σ :=
  if dwSize.IsOverflow then (.error .OutOfMemory, h)
  else Locked.LoaderHeap.RealAllocMemUnsafe eng this dwSize.Value h

/-- The method `LoaderHeap::RealAllocMem_NoThrow`: the overflow test comes before any
holder. -/
def Locked.LoaderHeap.RealAllocMem_NoThrow {σ : Type} (eng : UnlockedLoaderHeap σ)
    (this : Nat) (dwSize : S_SIZE_T) (h : LockedHeap σ) :
    Except Failure TaggedMemAllocPtr × LockedHeap σ :=
  if dwSize.IsOverflow then
    (.ok { m_pMem := 0, m_dwRequestedSize := dwSize.Value, m_pHeap := this, m_dwExtra := 0 }, h)
  else Locked.LoaderHeap.RealAllocMemUnsafe_NoThrow eng this dwSize.Value h

/-- The method `LoaderHeap::RealAllocAlignedMem`, with its holder. -/
def Locked.LoaderHeap.RealAllocAlignedMem {σ : Type} (bits : Nat) (eng : UnlockedLoaderHeap σ)
    (this : Nat) (dwRequestedSize dwAlignment : Nat) (h : LockedHeap σ) :
    Except Failure TaggedMemAllocPtr × LockedHeap σ :=
  CRITSEC_Holder.scope h
    (LoaderHeapModel.LoaderHeap.RealAllocAlignedMem bits eng this dwRequestedSize dwAlignment)

/-- The method `LoaderHeap::RealAllocAlignedMem_NoThrow`, with its holder. -/
def Locked.LoaderHeap.RealAllocAlignedMem_NoThrow {σ : Type} (debug : Bool) (bits : Nat)
    (eng : UnlockedLoaderHeap σ) (this : Nat) (dwRequestedSize dwAlignment : Nat)
    (h : LockedHeap σ) : Except Failure TaggedMemAllocPtr × LockedHeap σ :=
  CRITSEC_Holder.scope h
    (LoaderHeapModel.LoaderHeap.RealAllocAlignedMem_NoThrow debug bits eng this dwRequestedSize dwAlignment)

/-- The method `LoaderHeap::RealBackoutMem`, with its holder. -/
def Locked.LoaderHeap.RealBackoutMem {σ : Type} (eng : UnlockedLoaderHeap σ)
    (pMem dwSize : Nat) (h : LockedHeap σ) : LockedHeap σ :=
  (CRITSEC_Holder.scope h
    (fun b => ((), LoaderHeapModel.LoaderHeap.RealBackoutMem eng pMem dwSize b))).2

/-- The method `InterleavedLoaderHeap::RealAllocStub`, with its holder. -/
def Locked.InterleavedLoaderHeap.RealAllocStub {σ : Type}
    (eng : UnlockedInterleavedLoaderHeap σ) (this : Nat) (h : LockedHeap σ) :
    Except Failure TaggedMemAllocPtr × LockedHeap σ :=
  CRITSEC_Holder.scope h (LoaderHeapModel.InterleavedLoaderHeap.RealAllocStub eng this)

/-- The method `InterleavedLoaderHeap::RealBackoutMem`, with its holder. -/
def Locked.InterleavedLoaderHeap.RealBackoutMem {σ : Type}
    (eng : UnlockedInterleavedLoaderHeap σ) (pMem dwSize : Nat) (h : LockedHeap σ) :
    LockedHeap σ :=
  (CRITSEC_Holder.scope h
    (fun b => ((), LoaderHeapModel.InterleavedLoaderHeap.RealBackoutMem eng pMem dwSize b))).2

/-- The events a call added to a heap that had `before` events. -/
def newEvents (before : List HeapEvent) (after : List HeapEvent) : List HeapEvent :=
  after.drop before.length

/-- An entry point held the lock `lock` around its engine call: a holder on the non-null
cookie `lock` is constructed first, one engine call follows, and the holder is destroyed
last. -/
def heldLockAround (lock : Nat) (evs : List HeapEvent) : Prop :=
  lock ≠ 0 ∧ ∃ c : UnlockedCall, evs = [.HolderCtor lock, .Engine c, .HolderDtor lock]

end LoaderHeapModel


/-!
# EventPipe provider (`src/native/eventpipe/ep-provider.c`)

`uint32_t` and `uint64_t` values are natural numbers reduced modulo `2 ^ 32` and
`2 ^ 64`. A NUL-terminated string is given by the list of its characters before the
terminator; reading it at index `strlen` yields the terminator.
-/

namespace EventPipeModel

/-- The C library `strlen` of the NUL-terminated string with characters `s`. -/
def strlen (s : List Nat) : Nat := s.length

/-- The read `filter_data [i]` on the NUL-terminated string with characters `s`. -/
def charAt (s : List Nat) (i : Nat) : Nat := s.getD i 0

/-- The locals of the copy loop of `provider_invoke_callback`. Every byte of `buffer` is
`none` until it is written; `overrun` records a write past the allocation. -/
structure CopyState where
  is_quoted_value : Bool
  j : Nat
  buffer : List (Option Nat)
  overrun : Bool
  deriving DecidableEq, Repr

/-- One iteration of the copy loop of `provider_invoke_callback`, for index `i`. The
characters tested are `'"'` (34), `'='` (61) and `';'` (59). -/
def copyStep (filter_data : List Nat) (st : CopyState) (i : Nat) : CopyState :=
  if charAt filter_data i = 34 then
    { st with is_quoted_value := !st.is_quoted_value }
  else
    { st with
      buffer := st.buffer.set st.j
        (some (if (charAt filter_data i = 61 || charAt filter_data i = 59)
                    && !st.is_quoted_value then 0 else charAt filter_data i)),
      j := (st.j + 1) % 2 ^ 32,
      overrun := st.overrun || decide (st.buffer.length ≤ st.j) }

/-- What `provider_invoke_callback` hands to `ep_event_filter_desc_init`: the buffer, the
`buffer_size` argument, and the final value of the write index `j`. -/
structure FilterBuffer where
  buffer : List (Option Nat)
  buffer_size : Nat
  j : Nat
  overrun : Bool
  deriving DecidableEq, Repr

/-- The `if (filter_data)` block of `provider_invoke_callback`, for a non-null
`filter_data` and a successful `ep_rt_byte_array_alloc`. -/
def provider_invoke_callback_filter (filter_data : List Nat) : FilterBuffer :=
  let filter_data_len := strlen filter_data % 2 ^ 32
  let buffer_size := (filter_data_len + 1) % 2 ^ 32
  let st := (List.range buffer_size).foldl (copyStep filter_data)
    { is_quoted_value := false, j := 0, buffer := List.replicate buffer_size none,
      overrun := false }
  { buffer := st.buffer,
    buffer_size := if st.j < filter_data_len then (st.j + 1) % 2 ^ 32 else buffer_size,
    j := st.j,
    overrun := st.overrun }

/-- From the claim's words: the character at position `i` of `s` lies inside a quoted
section when an odd number of double-quote characters precede it. -/
def insideQuotes (s : List Nat) (i : Nat) : Bool :=
  (s.take i).count 34 % 2 == 1

/-- From the claim's words: the fate of the character `c` at position `i` of `s`. A
double quote is removed; `'='` and `';'` outside a quoted section become NUL; every
other character is kept. -/
def expectedChar (s : List Nat) (i c : Nat) : Option Nat :=
  if c = 34 then none
  else if (c = 61 ∨ c = 59) ∧ insideQuotes s i = false then some 0
  else some c

/-- From the claim's words: `filter_data` with every double quote removed and every
`'='` or `';'` outside a quoted section replaced by NUL, followed by one terminating
NUL. -/
def expectedFilterBuffer (s : List Nat) : List Nat :=
  (List.range s.length).filterMap (fun i => expectedChar s i (s.getD i 0)) ++ [0]

/-- The keyword filter of `ep_provider_add_event`: the value passed as `keywords` to
`ep_event_alloc`. -/
def ep_provider_add_event_keywords (keywords : Nat) : Nat :=
  let session_mask := (2 ^ 64 - 1) - 0xF00000000000
  let all_keywords := 2 ^ 64 - 1
  if keywords ≠ all_keywords then keywords &&& session_mask else keywords

/-- The arguments of the `ep_event_alloc` call made by `ep_provider_add_event`. -/
structure EventAllocArgs where
  keywords : Nat
  event_id : Nat
  event_version : Nat
  level : Nat
  need_stack : Bool
  metadata_len : Nat
  deriving DecidableEq, Repr

/-- The call `ep_event_alloc (provider, keywords, event_id, ...)` made by
`ep_provider_add_event`. -/
def ep_provider_add_event (event_id keywords event_version level : Nat) (need_stack : Bool)
    (metadata_len : Nat) : EventAllocArgs :=
  { keywords := ep_provider_add_event_keywords keywords,
    event_id := event_id,
    event_version := event_version,
    level := level,
    need_stack := need_stack,
    metadata_len := metadata_len }

end EventPipeModel


/-!
# ARM code generation helpers (`src/coreclr/vm/arm/cgencpu.h`)

C integers are kept in two's complement: an `int16_t` or `uint16_t` is a natural number
below `2 ^ 16`, an `int` one below `2 ^ 32`. The integer promotions, the arithmetic right
shift and the narrowing assignments of the source are written out.
-/

namespace ArmModel

/-- The constant `MAX_OFFSET_UNCONDITIONAL_BRANCH_THUMB`. -/
def MAX_OFFSET_UNCONDITIONAL_BRANCH_THUMB : Nat := 2048

/-- The bits of the `int16_t` with value `x`. -/
def ofInt16 (x : Int) : Nat := (x % 2 ^ 16).toNat

/-- The value of the `int16_t` with bits `v`. -/
def toInt16 (v : Nat) : Int := if v % 2 ^ 16 < 2 ^ 15 then (v % 2 ^ 16 : Nat) else (v % 2 ^ 16 : Nat) - 2 ^ 16

/-- Integer promotion of an `int16_t` to `int`: sign extension to 32 bits. -/
def promoteInt16 (v : Nat) : Nat := if v < 2 ^ 15 then v else v + (2 ^ 32 - 2 ^ 16)

/-- The test `x >= 0` on an `int`. -/
def nonNegative32 (v : Nat) : Bool := decide (v < 2 ^ 31)

/-- The shift `x >> n` on an `int`: arithmetic, the sign bit is replicated. -/
def sar32 (v n : Nat) : Nat :=
  if v < 2 ^ 31 then v >>> n else (v >>> n) ||| (2 ^ 32 - 2 ^ (32 - n))

/-- The function `emitUnconditionalBranchThumb`: the halfword stored at `pBuffer` for the
`int16_t` argument with bits `offset`. -/
def emitUnconditionalBranchThumb (offset : Nat) : Nat :=
  let offset1 :=
    if nonNegative32 (promoteInt16 offset) then
      sar32 (promoteInt16 offset) 1 % 2 ^ 16
    else
      (sar32 ((MAX_OFFSET_UNCONDITIONAL_BRANCH_THUMB + promoteInt16 offset) % 2 ^ 32) 1
        ||| 0x400) % 2 ^ 16
  (0xE000 ||| promoteInt16 offset1) % 2 ^ 16

/-- The function `decodeUnconditionalBranchThumb`: the bits of the `int16_t` returned for
the halfword `instr` read from `pBuffer`. -/
def decodeUnconditionalBranchThumb (instr : Nat) : Nat :=
  let offset0 := ((2 ^ 32 - 1 - 0xE000) &&& instr) % 2 ^ 16
  if promoteInt16 offset0 &&& 0x400 = 0 then
    (promoteInt16 offset0 <<< 1) % 2 ^ 32 % 2 ^ 16
  else
    let offset1 := ((2 ^ 32 - 1 - 0x400) &&& promoteInt16 offset0) % 2 ^ 16
    (((promoteInt16 offset1 <<< 1) % 2 ^ 32
        + (2 ^ 32 - MAX_OFFSET_UNCONDITIONAL_BRANCH_THUMB)) % 2 ^ 32) % 2 ^ 16

/-- The range `_ASSERTE` shared by the encoder and the decoder, on the bits of an
`int16_t`: `offset >= -MAX && offset < MAX`. -/
def branchOffsetInRange (v : Nat) : Bool :=
  decide (-(MAX_OFFSET_UNCONDITIONAL_BRANCH_THUMB : Int) ≤ toInt16 v)
    && decide (toInt16 v < (MAX_OFFSET_UNCONDITIONAL_BRANCH_THUMB : Int))

/-- The function `GetARMInstructionLength (WORD instr)`. -/
def GetARMInstructionLength (instr : Nat) : Nat :=
  if (instr &&& 0xf800) > 0xe000 then 4 else 2

end ArmModel


/-!
# RISC-V stubs (`src/coreclr/vm/riscv64/stubs.cpp`)

Emitted code is a list of 32-bit words, oldest first. Unsigned C values are natural
numbers reduced modulo their width; a signed C expression is an integer, narrowed when it
is stored. `_ASSERTE` is not evaluated (release build).
-/

namespace RiscV64Model

/-- Storing an integer expression into a `DWORD`, or converting it to `unsigned`: its low
32 bits. -/
def toU32 (x : Int) : Nat := (x % 2 ^ 32).toNat

/-- The two's complement bits of a 64-bit integer expression; bitwise operators of the
source act on these. -/
def toU64 (x : Int) : Nat := (x % 2 ^ 64).toNat

/-- The value of the low `bits` bits of `v` read as a two's complement number. -/
def signExtend (bits : Nat) (v : Nat) : Int :=
  if v % 2 ^ bits < 2 ^ (bits - 1) then ((v % 2 ^ bits : Nat) : Int)
  else ((v % 2 ^ bits : Nat) : Int) - 2 ^ bits

/-- The function `ITypeInstr`. -/
def ITypeInstr (opcode funct3 rd rs1 : Nat) (imm12 : Int) : Nat :=
  (opcode ||| (rd <<< 7) % 2 ^ 32 ||| (funct3 <<< 12) % 2 ^ 32 ||| (rs1 <<< 15) % 2 ^ 32
    ||| toU32 (imm12 <<< 20)) % 2 ^ 32

/-- The function `RTypeInstr`. -/
def RTypeInstr (opcode funct3 funct7 rd rs1 rs2 : Nat) : Nat :=
  (opcode ||| (rd <<< 7) % 2 ^ 32 ||| (funct3 <<< 12) % 2 ^ 32 ||| (rs1 <<< 15) % 2 ^ 32
    ||| (rs2 <<< 20) % 2 ^ 32 ||| (funct7 <<< 25) % 2 ^ 32) % 2 ^ 32

/-- The function `UTypeInstr`. -/
def UTypeInstr (opcode rd : Nat) (imm20 : Int) : Nat :=
  (opcode ||| (rd <<< 7) % 2 ^ 32 ||| toU32 (imm20 <<< 12)) % 2 ^ 32

/-- The function `BTypeInstr`. -/
def BTypeInstr (opcode funct3 rs1 rs2 : Nat) (imm13 : Int) : Nat :=
  let immLo1 := Int.land (imm13 >>> 11) 0x1
  let immLo4 := Int.land (imm13 >>> 1) 0xf
  let immHi6 := Int.land (imm13 >>> 5) 0x3f
  let immHi1 := Int.land (imm13 >>> 12) 0x1
  (opcode ||| toU32 (immLo4 <<< 8) ||| (funct3 <<< 12) % 2 ^ 32 ||| (rs1 <<< 15) % 2 ^ 32
    ||| (rs2 <<< 20) % 2 ^ 32 ||| toU32 (immHi6 <<< 25) ||| toU32 (immLo1 <<< 7)
    ||| toU32 (immHi1 <<< 31)) % 2 ^ 32

/-- The word emitted by `StubLinkerCPU::EmitAddImm`: `addi Xd, Xn, value`. -/
def EmitAddImm (Xd Xn : Nat) (value : Int) : Nat := ITypeInstr 0x13 0 Xd Xn value

/-- The word emitted by `StubLinkerCPU::EmitSllImm`: `slli Xd, Xn, value`. -/
def EmitSllImm (Xd Xn value : Nat) : Nat := ITypeInstr 0x13 0x1 Xd Xn value

/-- The word emitted by `StubLinkerCPU::EmitLuImm`: `lui Xd, value`. -/
def EmitLuImm (Xd value : Nat) : Nat :=
  (0x00000037 ||| (value <<< 12) % 2 ^ 32 ||| (Xd <<< 7) % 2 ^ 32) % 2 ^ 32

/-- The predicate `isValidSimm12`, declared outside this file; as the claim reads it:
the value lies in `[-2048, 2047]`. -/
def isValidSimm12 (value : Int) : Bool := decide (-2048 ≤ value) && decide (value ≤ 2047)

/-- The intrinsic `BitScanReverse64`: index of the highest set bit, among bits 0 to 63,
of a non-zero mask. -/
def BitScanReverse64 (mask : Nat) : Nat :=
  (List.range 64).foldl (fun index i => if mask.testBit i then i else index) 0

/-- The `while (remainingShift > 0)` loop of `EmitMovConstant`, with the words emitted so
far; returns the words and the final `shiftAccumulator`. At most `fuel` iterations are
run; each one lowers `remainingShift` by at least one. -/
def movConstantLoop (reg imm : Nat) :
    Nat → Int → Nat → List Nat → List Nat × Nat
  | 0, _, shiftAccumulator, out => (out, shiftAccumulator)
  | fuel + 1, remainingShift, shiftAccumulator, out =>
    if remainingShift > 0 then
      let shift := if remainingShift ≥ 11 then 11 else (remainingShift % 11).toNat
      let mask := 0x7ff >>> (11 - shift)
      let remainingShift1 := remainingShift - shift
      let low11 : Nat := ((imm >>> remainingShift1.toNat) &&& mask) % 2 ^ 32
      let shiftAccumulator1 := (shiftAccumulator + shift) % 2 ^ 32
      if low11 ≠ 0 then
        movConstantLoop reg imm fuel remainingShift1 0
          (out ++ [EmitSllImm reg reg shiftAccumulator1, EmitAddImm reg reg (low11 : Nat)])
      else
        movConstantLoop reg imm fuel remainingShift1 shiftAccumulator1 out
    else (out, shiftAccumulator)

/-- The method `StubLinkerCPU::EmitMovConstant (reg, imm)`, `imm` a `UINT64`: the words it
emits. `isValidSimm12` is applied to `imm` read as a signed 64-bit value. -/
def EmitMovConstant (reg imm : Nat) : List Nat :=
  if isValidSimm12 (signExtend 64 imm) then
    [EmitAddImm reg 0 ((imm &&& 0xFFF : Nat) : Int)]
  else
    let msb := BitScanReverse64 imm
    let high31 :=
      if msb > 30 then ((imm >>> (msb - 30)) &&& 0x7FFFFFFF) % 2 ^ 32
      else (imm &&& 0x7FFFFFFF) % 2 ^ 32
    let high19 := ((high31 + 0x800) % 2 ^ 32) >>> 12
    let low12 : Int := signExtend 32 ((high31 <<< (32 - 12)) % 2 ^ 32) >>> (32 - 12)
    let out := [EmitLuImm reg high19] ++ (if low12 ≠ 0 then [EmitAddImm reg reg low12] else [])
    let remainingShift : Int := (msb : Int) - 30
    let r := movConstantLoop reg imm 64 remainingShift 0 out
    if r.2 ≠ 0 then r.1 ++ [EmitSllImm reg reg r.2] else r.1

/-- Register file of an RV64 hart: the 64-bit content of `x0 .. x31`. -/
def Regs := Nat → Nat

/-- Write `v` to register `rd`; `x0` is hard-wired to zero. -/
def Regs.write (regs : Regs) (rd : Nat) (v : Nat) : Regs :=
  fun r => if r = rd ∧ rd ≠ 0 then v % 2 ^ 64 else regs r

/-- From the claim's words, the RV64 semantics of the instructions `EmitMovConstant`
emits: `lui` writes its 32-bit result sign-extended to 64 bits, `addi` adds a
sign-extended 12-bit immediate in 64-bit arithmetic, `slli` shifts left by a 6-bit
amount. Any other word leaves the registers unchanged. -/
def execWord (regs : Regs) (w : Nat) : Regs :=
  let opcode := w % 128
  let rd := (w >>> 7) % 32
  let funct3 := (w >>> 12) % 8
  let rs1 := (w >>> 15) % 32
  let imm := w >>> 20
  if opcode = 0x37 then
    regs.write rd ((signExtend 32 (w &&& 0xFFFFF000)) % 2 ^ 64).toNat
  else if opcode = 0x13 ∧ funct3 = 0 then
    regs.write rd ((((regs rs1 : Nat) : Int) + signExtend 12 imm) % 2 ^ 64).toNat
  else if opcode = 0x13 ∧ funct3 = 1 then
    regs.write rd ((regs rs1 <<< (imm % 64)) % 2 ^ 64)
  else regs

/-- Run a sequence of words. -/
def execWords (regs : Regs) (ws : List Nat) : Regs := ws.foldl execWord regs

/-- The outcome of `BranchInstructionFormat::EmitInstruction`: the words written at
`pOutBufferRW` and the 64-bit value stored at `pDataBuffer`. -/
structure BranchEmit where
  words : List Nat
  data : Int
  deriving DecidableEq, Repr

/-- Why `EmitInstruction` throws. -/
inductive EmitError where
  | kNotSupportedException
  | Arithmetic
  deriving DecidableEq, Repr

/-- The method `BranchInstructionFormat::EmitInstruction`, for the given
`dataOffset = pDataBuffer - pOutBufferRW`. -/
def EmitInstruction (variationCode : Nat) (fixedUpReference pOutBufferRX dataOffset : Int) :
    Except EmitError BranchEmit :=
  if dataOffset < -(0x80000000) ∨ dataOffset > 0x7fffffff then
    .error .kNotSupportedException
  else
    let imm12 : Nat := (0xFFF &&& toU64 dataOffset) % 2 ^ 16
    let auipc := (0x00000317 ||| toU64 (((dataOffset + 0x800) >>> 12) <<< 12)) % 2 ^ 32
    let ld := (0x00033303 ||| (imm12 <<< 20)) % 2 ^ 32
    let jalr := if variationCode &&& 0x2 ≠ 0 then 0x000300e7 else 0x00030067
    if variationCode &&& 0x1 ≠ 0 then
      .ok { words := [auipc, ld, 0x00033303, jalr],
            data := signExtend 64 ((fixedUpReference + pOutBufferRX) % 2 ^ 64).toNat }
    else if fixedUpReference + pOutBufferRX < -(2 ^ 63)
        ∨ fixedUpReference + pOutBufferRX > 2 ^ 63 - 1 then
      .error .Arithmetic
    else
      .ok { words := [auipc, ld, jalr], data := fixedUpReference + pOutBufferRX }

/-- The offset an `auipc` word adds to the program counter under RV64: its upper 20 bits,
shifted into place and sign-extended from 32 bits. -/
def auipcOffset (w : Nat) : Int := signExtend 32 (((w >>> 12) <<< 12) % 2 ^ 32)

/-- The offset an `ld` word adds to its base register: its upper 12 bits, sign-extended. -/
def ldOffset (w : Nat) : Int := signExtend 12 (w >>> 20)

end RiscV64Model


/-!
# Run-time dictionary lookup descriptors

`CORINFO_RUNTIME_LOOKUP` and the constant `CORINFO_NO_SIZE_CHECK` are declared outside the
files embedded here. The descriptor is a record of the four fields the helpers read; the
constant is a parameter of every function that tests it.
-/

namespace JitInterface

/-- The fields of `CORINFO_RUNTIME_LOOKUP` read by `CreateDictionaryLookupHelper`;
`offsets i` is `offsets[i]`. -/
structure CORINFO_RUNTIME_LOOKUP where
  indirections : Nat
  testForNull : Bool
  sizeOffset : Nat
  offsets : Nat → Nat

/-- An example descriptor: three indirections with offsets 8, 5000 and 6000, a null test
and a size check at offset 4000. -/
def exampleLookup : CORINFO_RUNTIME_LOOKUP :=
  { indirections := 3, testForNull := true, sizeOffset := 4000,
    offsets := fun i => [8, 5000, 6000].getD i 0 }

end JitInterface

namespace RiscV64Model

open JitInterface

/-- The macro `ALIGN_UP (x, a)`. -/
def ALIGN_UP (x a : Nat) : Nat := (x + (a - 1)) / a * a

/-- One 4-byte cell of the helper being written at `pStart`: an instruction word, the
slot reserved for the `bge` that is filled in later, or a `UINT32` data word. -/
inductive Cell where
  | instr (w : Nat)
  | reserved
  | data (v : Nat)
  deriving DecidableEq, Repr

/-- A load `lw t4, imm(t4)` of an indirection-data word: the immediate passed to
`ITypeInstr` and the quantity the code that follows consumes. -/
structure Load where
  imm : Nat
  value : Nat
  deriving DecidableEq, Repr

/-- The locals of the emitting part of `CreateDictionaryLookupHelper`: the cells written
so far (`p - pStart` is four times their number), `dataOffset`, `pBLECall` as a byte
offset from `pStart`, and the indirection-data loads emitted so far. -/
structure EmitState where
  cells : List Cell
  dataOffset : Nat
  pBLECall : Option Nat
  loads : List Load
  deriving DecidableEq, Repr

/-- The body of the first `for` loop of `CreateDictionaryLookupHelper`, on the pair
`(codeSize, indirectionsDataSize)`. -/
def codeSizeStep (CORINFO_NO_SIZE_CHECK : Nat) (lk : CORINFO_RUNTIME_LOOKUP)
    (acc : Nat × Nat) (i : Nat) : Nat × Nat :=
  let acc1 :=
    if i + 1 = lk.indirections ∧ lk.sizeOffset ≠ CORINFO_NO_SIZE_CHECK then
      (acc.1 + (if lk.sizeOffset > 2047 then 24 else 16),
       acc.2 + (if lk.sizeOffset > 2047 then 4 else 0))
    else acc
  (acc1.1 + (if lk.offsets i > 2047 then 12 else 4),
   acc1.2 + (if lk.offsets i > 2047 then 4 else 0))

/-- The size check emitted in the last iteration of the second `for` loop. -/
def emitSizeCheck (slotOffset : Nat) (lk : CORINFO_RUNTIME_LOOKUP) (st : EmitState) :
    EmitState :=
  let st1 : EmitState :=
    if lk.sizeOffset > 2047 then
      { st with
        cells := st.cells ++
          [.instr (ITypeInstr 0x3 0x2 29 29 st.dataOffset),
           .instr (RTypeInstr 0x33 0 0 30 10 29),
           .instr (ITypeInstr 0x3 0x3 30 30 0)],
        loads := st.loads ++ [{ imm := st.dataOffset, value := lk.sizeOffset }],
        dataOffset := st.dataOffset + 4 }
    else
      { st with
        cells := st.cells ++ [.instr (ITypeInstr 0x3 0x3 30 10 (lk.sizeOffset % 2 ^ 32 : Nat))] }
  { st1 with
    cells := st1.cells ++
      [.instr (UTypeInstr 0x37 29 (((slotOffset &&& 0xfffff000) >>> 12 : Nat) : Int)),
       .instr (ITypeInstr 0x13 0 29 29 ((slotOffset &&& 0xfff : Nat) : Int)),
       .reserved],
    pBLECall := some (4 * (st1.cells.length + 2)) }

/-- The body of the second `for` loop of `CreateDictionaryLookupHelper`. -/
def emitStep (CORINFO_NO_SIZE_CHECK slotOffset : Nat) (lk : CORINFO_RUNTIME_LOOKUP)
    (st : EmitState) (i : Nat) : EmitState :=
  let st1 :=
    if i + 1 = lk.indirections ∧ lk.sizeOffset ≠ CORINFO_NO_SIZE_CHECK then
      emitSizeCheck slotOffset lk st
    else st
  if lk.offsets i > 2047 then
    { st1 with
      cells := st1.cells ++
        [.instr (ITypeInstr 0x3 0x2 29 29 ((st1.dataOffset &&& 0xfff : Nat) : Int)),
         .instr (RTypeInstr 0x33 0 0 10 10 29),
         .instr (ITypeInstr 0x3 0x2 10 10 0)],
      loads := st1.loads ++ [{ imm := st1.dataOffset &&& 0xfff, value := lk.offsets i }],
      dataOffset := st1.dataOffset + 4 }
  else
    { st1 with
      cells := st1.cells ++ [.instr (ITypeInstr 0x3 0x3 10 10 (lk.offsets i % 2 ^ 32 : Nat))] }

/-- The body of the `data_label` loop of `CreateDictionaryLookupHelper`. -/
def dataStep (CORINFO_NO_SIZE_CHECK : Nat) (lk : CORINFO_RUNTIME_LOOKUP)
    (cells : List Cell) (i : Nat) : List Cell :=
  let cells1 :=
    if i + 1 = lk.indirections ∧ lk.sizeOffset ≠ CORINFO_NO_SIZE_CHECK
        ∧ lk.sizeOffset > 2047 then
      cells ++ [.data (lk.sizeOffset % 2 ^ 32)]
    else cells
  if lk.offsets i > 2047 then cells1 ++ [.data (lk.offsets i % 2 ^ 32)] else cells1

/-- The cells written by `DynamicHelpers::EmitHelperWithArg`: four instructions, then
`arg` and `target` as 64-bit values, low word first. -/
def EmitHelperWithArg (arg target : Nat) : List Cell :=
  [.instr (UTypeInstr 0x17 5 0),
   .instr (ITypeInstr 0x3 0x3 11 5 16),
   .instr (ITypeInstr 0x3 0x3 5 5 24),
   .instr (ITypeInstr 0x67 0 0 5 0),
   .data (arg % 2 ^ 32), .data (arg / 2 ^ 32 % 2 ^ 32),
   .data (target % 2 ^ 32), .data (target / 2 ^ 32 % 2 ^ 32)]

/-- What `CreateDictionaryLookupHelper` has computed and written when it reaches
`END_DYNAMIC_HELPER_EMIT`: `cb` (the final `codeSize`), the initial `dataOffset`, the
cells from `pStart` to `p`, and the indirection-data loads in emission order. -/
structure LookupHelper where
  codeSize : Nat
  dataOffset : Nat
  cells : List Cell
  loads : List Load
  deriving DecidableEq, Repr

/-- The part of `CreateDictionaryLookupHelper` between the second `for` loop and
`data_label`: the return, and with `testForNull` the null test, the patch of the reserved
`bge`, the alignment `nop` and the helper call. -/
def emitTail (lk : CORINFO_RUNTIME_LOOKUP) (st : EmitState) (pArgs helperAddress : Nat) :
    List Cell :=
  if !lk.testForNull then
    st.cells ++ [.instr (ITypeInstr 0x67 0 0 1 0)]
  else
    let c1 := st.cells ++ [.instr (BTypeInstr 0x63 0 10 0 8), .instr (ITypeInstr 0x67 0 0 1 0)]
    let c2 :=
      match st.pBLECall with
      | some pBLECall =>
        c1.set (pBLECall / 4)
          (.instr (BTypeInstr 0x63 0x5 29 30 ((4 * c1.length - pBLECall : Nat) : Int)))
      | none => c1
    let c3 := c2 ++ [.instr (ITypeInstr 0x13 0 10 7 0)]
    let c4 := if (4 * c3.length) &&& 0x7 ≠ 0 then c3 ++ [.instr (ITypeInstr 0x13 0 0 0 0)]
              else c3
    c4 ++ EmitHelperWithArg pArgs helperAddress

/-- The `else` branch (`indirections != CORINFO_USEHELPER`) of
`DynamicHelpers::CreateDictionaryLookupHelper`. The `int` and `uint` counters are not
reduced: `indirections` is a 16-bit count and an iteration adds at most 36 bytes. -/
def CreateDictionaryLookupHelper (CORINFO_NO_SIZE_CHECK : Nat) (lk : CORINFO_RUNTIME_LOOKUP)
    (dictionaryIndexAndSlot pArgs helperAddress : Nat) : LookupHelper :=
  let slotOffset := ((dictionaryIndexAndSlot &&& 0xFFFF) % 2 ^ 16 * 8) % 2 ^ 16
  let sizeCheck : Bool := lk.sizeOffset != CORINFO_NO_SIZE_CHECK
  let codeSize0 := if lk.testForNull || sizeCheck then 4 else 0
  let sizes := (List.range lk.indirections).foldl (codeSizeStep CORINFO_NO_SIZE_CHECK lk)
    (codeSize0, 0)
  let indirectionsDataSize := sizes.2
  let codeSize1 := sizes.1 + (if indirectionsDataSize ≠ 0 then 4 else 0)
  let codeSize2 := if lk.testForNull then ALIGN_UP (codeSize1 + 12) 8 + 32 else codeSize1 + 4
  let dataOffset := codeSize2
  let codeSize := codeSize2 + indirectionsDataSize
  let cells0 : List Cell :=
    if indirectionsDataSize ≠ 0 then [.instr (UTypeInstr 0x17 29 0)] else []
  let cells1 : List Cell :=
    if lk.testForNull || sizeCheck then cells0 ++ [.instr (ITypeInstr 0x13 0 7 10 0)]
    else cells0
  let st := (List.range lk.indirections).foldl
    (emitStep CORINFO_NO_SIZE_CHECK slotOffset lk)
    { cells := cells1, dataOffset := dataOffset, pBLECall := none, loads := [] }
  { codeSize := codeSize,
    dataOffset := dataOffset,
    cells := (List.range lk.indirections).foldl (dataStep CORINFO_NO_SIZE_CHECK lk)
      (emitTail lk st pArgs helperAddress),
    loads := st.loads }

end RiscV64Model


/-!
# x86 dynamic helpers (`src/coreclr/vm/i386/cgenx86.cpp`)

Emitted code is a list of bytes from `pStart`, `none` for a byte that is reserved but not
yet written. The opcode constant `X86_INSTR_JMP_REL32` and the displacement returned by
`rel32UsingJumpStub` come from outside the file and are parameters.
-/

namespace X86Model

open JitInterface

/-- The bytes of a store `*(UINT16*)p = v`, little endian. -/
def le16 (v : Nat) : List (Option Nat) := [some (v % 256), some (v / 256 % 256)]

/-- The bytes of a store `*(UINT32*)p = v` or `*(INT32*)p = v`, little endian. -/
def le32 (v : Nat) : List (Option Nat) :=
  [some (v % 256), some (v / 256 % 256), some (v / 65536 % 256), some (v / 16777216 % 256)]

/-- The locals of the emitting part of `CreateDictionaryLookupHelper`: the bytes from
`pStart` to `p`, and `pJLECall` as a byte offset from `pStart`. -/
structure EmitState where
  bytes : List (Option Nat)
  pJLECall : Option Nat
  deriving DecidableEq, Repr

/-- The body of the first `for` loop of `CreateDictionaryLookupHelper`, on
`indirectionsSize`. -/
def indirectionsSizeStep (lk : CORINFO_RUNTIME_LOOKUP) (indirectionsSize i : Nat) : Nat :=
  indirectionsSize + (if lk.offsets i ≥ 0x80 then 6 else 3)

/-- The body of the second `for` loop of `CreateDictionaryLookupHelper`. -/
def emitStep (CORINFO_NO_SIZE_CHECK slotOffset : Nat) (lk : CORINFO_RUNTIME_LOOKUP)
    (st : EmitState) (i : Nat) : EmitState :=
  let st1 : EmitState :=
    if i + 1 = lk.indirections ∧ lk.sizeOffset ≠ CORINFO_NO_SIZE_CHECK then
      { bytes := st.bytes ++ le16 0xb881 ++ le32 (lk.sizeOffset % 2 ^ 32)
                   ++ le32 (slotOffset % 2 ^ 32) ++ [some 0x7e] ++ [none],
        pJLECall := some (st.bytes.length + 11) }
    else st
  if lk.offsets i ≥ 0x80 then
    { st1 with
      bytes := st1.bytes ++ le16 (if i = 0 then 0x818b else 0x808b)
                 ++ le32 (lk.offsets i % 2 ^ 32) }
  else
    { st1 with
      bytes := st1.bytes ++ le16 (if i = 0 then 0x418b else 0x408b)
                 ++ [some (lk.offsets i % 256)] }

/-- The bytes written by `DynamicHelpers::EmitHelperWithArg`: `mov edx, arg` and
`jmp rel32`. -/
def EmitHelperWithArg (X86_INSTR_JMP_REL32 arg rel32 : Nat) : List (Option Nat) :=
  [some 0xBA] ++ le32 (arg % 2 ^ 32) ++ [some X86_INSTR_JMP_REL32] ++ le32 (rel32 % 2 ^ 32)

/-- What `CreateDictionaryLookupHelper` has computed and written when it reaches
`END_DYNAMIC_HELPER_EMIT`: `cb` (that is `codeSize`), the bytes from `pStart` to `p`, and
`pJLECall`. -/
structure LookupHelper where
  codeSize : Nat
  bytes : List (Option Nat)
  pJLECall : Option Nat
  deriving DecidableEq, Repr

/-- The `else` branch (`indirections != CORINFO_USEHELPER`) of
`DynamicHelpers::CreateDictionaryLookupHelper`; `rel32` is the value of
`rel32UsingJumpStub` for the helper address. -/
def CreateDictionaryLookupHelper (CORINFO_NO_SIZE_CHECK X86_INSTR_JMP_REL32 : Nat)
    (lk : CORINFO_RUNTIME_LOOKUP) (dictionaryIndexAndSlot pArgs rel32 : Nat) : LookupHelper :=
  let slotOffset := ((dictionaryIndexAndSlot &&& 0xFFFF) % 2 ^ 16 * 4) % 2 ^ 16
  let indirectionsSize := (List.range lk.indirections).foldl (indirectionsSizeStep lk) 0
  let codeSize := indirectionsSize + (if lk.testForNull then 15 else 1)
    + (if lk.sizeOffset ≠ CORINFO_NO_SIZE_CHECK then 12 else 0)
  let st := (List.range lk.indirections).foldl (emitStep CORINFO_NO_SIZE_CHECK slotOffset lk)
    { bytes := [], pJLECall := none }
  if !lk.testForNull then
    { codeSize := codeSize, bytes := st.bytes ++ [some 0xC3], pJLECall := st.pJLECall }
  else
    let b1 := st.bytes ++ le16 0xc085 ++ le16 0x0174 ++ [some 0xC3]
    let b2 :=
      match st.pJLECall with
      | some pJLECall => b1.set pJLECall (some ((b1.length - pJLECall - 1) % 256))
      | none => b1
    { codeSize := codeSize,
      bytes := b2 ++ EmitHelperWithArg X86_INSTR_JMP_REL32 pArgs rel32,
      pJLECall := st.pJLECall }

/-- The displacement of a `jle rel8` is a signed byte added to the address of the next
instruction: the offset, from `pStart`, that the `jle` whose displacement byte is at offset
`q` and has value `d` jumps to. -/
def jleTarget (q d : Nat) : Int := (q : Int) + 1 + (if d < 128 then (d : Int) else (d : Int) - 256)

end X86Model


/-! # Theorems -/

namespace LoaderHeapModel

/-! ## Machine arithmetic lemmas -/

theorem ptrSub_of_le (bits P E : Nat) (hP : P < 2 ^ bits) (hE : E ≤ P) :
    ptrSub bits P E = P - E := by
  unfold ptrSub
  have hE' : E % 2 ^ bits = E := Nat.mod_eq_of_lt (lt_of_le_of_lt hE hP)
  rw [hE']
  have h1 : P + (2 ^ bits - E) = (P - E) + 2 ^ bits := by omega
  rw [h1, Nat.add_mod_right]
  exact Nat.mod_eq_of_lt (by omega)

theorem ptrSub_ne_zero (bits P E : Nat) (hP : P < 2 ^ bits) (hE : E < 2 ^ bits)
    (hne : P ≠ E) : ptrSub bits P E ≠ 0 := by
  unfold ptrSub
  rw [Nat.mod_eq_of_lt hE]
  rcases Nat.lt_or_ge P E with hlt | hge
  · rw [Nat.mod_eq_of_lt (by omega)]
    omega
  · have h1 : P + (2 ^ bits - E) = (P - E) + 2 ^ bits := by omega
    rw [h1, Nat.add_mod_right, Nat.mod_eq_of_lt (by omega)]
    omega

theorem sizeAdd_of_lt (bits a b : Nat) (h : a + b < 2 ^ bits) : sizeAdd bits a b = a + b := by
  unfold sizeAdd
  exact Nat.mod_eq_of_lt h

theorem ptrAdd_ptrSub (bits P E : Nat) (hP : P < 2 ^ bits) (hE : E < 2 ^ bits) :
    ptrAdd bits (ptrSub bits P E) E = P := by
  unfold ptrAdd ptrSub
  rw [Nat.mod_eq_of_lt hE, Nat.mod_add_mod]
  have h1 : P + (2 ^ bits - E) + E = P + 2 ^ bits := by omega
  rw [h1, Nat.add_mod_right]
  exact Nat.mod_eq_of_lt hP

theorem ptrAdd_zero (bits P : Nat) (hP : P < 2 ^ bits) : ptrAdd bits P 0 = P := by
  unfold ptrAdd
  rw [Nat.add_zero]
  exact Nat.mod_eq_of_lt hP

/-! ## C1: the destructor of `AllocMemHolder` -/

/-- C1: destroying a holder makes exactly one `RealBackoutMem` call, on the heap in
`m_value.m_pHeap` with arguments `(m_value.m_pMem, m_value.m_dwRequestedSize)`, if and only
if the holder is acquired and `m_value.m_pMem` is non-null, and makes no call otherwise;
a default-constructed holder and a holder over a null allocation make no call. -/
theorem AllocMemHolder_dtor_backout_iff (h : AllocMemHolder) :
    (h.dtor = [{ pHeap := h.m_value.m_pHeap, pMem := h.m_value.m_pMem,
                 dwSize := h.m_value.m_dwRequestedSize }]
        ↔ (h.m_fAcquired = true ∧ h.m_value.m_pMem ≠ 0)) ∧
    (h.dtor = [] ↔ ¬ (h.m_fAcquired = true ∧ h.m_value.m_pMem ≠ 0)) ∧
    AllocMemHolder.ctorDefault.dtor = [] ∧
    (∀ value : TaggedMemAllocPtr, value.m_pMem = 0 → (AllocMemHolder.ctor value).dtor = []) := by
  refine ⟨?_, ?_, rfl, ?_⟩
  · by_cases hc : h.m_fAcquired = true ∧ h.m_value.m_pMem ≠ 0
    · simp [AllocMemHolder.dtor, hc.1, hc.2]
    · have : ¬ (h.m_fAcquired = true ∧ ¬ h.m_value.m_pMem = 0) := hc
      simp only [AllocMemHolder.dtor, Bool.and_eq_true, bne_iff_ne, ne_eq, this, if_false,
        iff_false]
      exact fun hh => by cases hh
  · by_cases hc : h.m_fAcquired = true ∧ h.m_value.m_pMem ≠ 0
    · simp [AllocMemHolder.dtor, hc.1, hc.2]
    · have : ¬ (h.m_fAcquired = true ∧ ¬ h.m_value.m_pMem = 0) := hc
      simp only [AllocMemHolder.dtor, Bool.and_eq_true, bne_iff_ne, ne_eq, this, if_false,
        not_false_eq_true]
  · intro value hv
    simp [AllocMemHolder.dtor, AllocMemHolder.ctor, hv]

/-- C1 at a concrete armed holder over the block at `4096` of size `16` from heap `7`. -/
theorem AllocMemHolder_dtor_backout_iff_witness :
    (AllocMemHolder.ctor { m_pMem := 4096, m_dwRequestedSize := 16, m_pHeap := 7,
                           m_dwExtra := 0 }).dtor
      = [{ pHeap := 7, pMem := 4096, dwSize := 16 }] :=
  (AllocMemHolder_dtor_backout_iff
    (AllocMemHolder.ctor { m_pMem := 4096, m_dwRequestedSize := 16, m_pHeap := 7,
                           m_dwExtra := 0 })).1.2 ⟨rfl, by decide⟩

/-! ## C2, C3: aligned allocations -/

/-- C2: when the underlying aligned allocator returns the aligned pointer `P` with padding
`E` for an allocation that succeeded (the raw block start `P - E` is not null), the tagged
result of `RealAllocAlignedMem` and of `RealAllocAlignedMem_NoThrow` stores
`m_pMem = P - E` and `m_dwRequestedSize = S + E` (pointer and `size_t` arithmetic), and an
armed holder destroyed over it makes the single backout call `(P - E, S + E)` on the
allocating heap: `m_dwExtra = E` is not added a second time. The machine differences and
sums are the mathematical ones whenever `E ≤ P` and `S + E` is a `size_t`. -/
theorem RealAllocAlignedMem_backout_bounds {σ : Type} (bits : Nat)
    (eng : UnlockedLoaderHeap σ) (this S A P E : Nat) (h : Heap σ)
    (hP : P < 2 ^ bits) (hE : E < 2 ^ bits) (hraw : P ≠ E) :
    (∀ s : σ, eng.UnlockedAllocAlignedMem S A h.state = (some (P, E), s) →
      ∃ t : TaggedMemAllocPtr,
        (LoaderHeap.RealAllocAlignedMem bits eng this S A h).1 = .ok t ∧
        t.m_pMem = ptrSub bits P E ∧ t.m_dwRequestedSize = sizeAdd bits S E ∧
        t.m_dwExtra = E ∧
        (AllocMemHolder.ctor t).dtor
          = [{ pHeap := this, pMem := ptrSub bits P E, dwSize := sizeAdd bits S E }]) ∧
    (∀ (debug : Bool) (s : σ),
      eng.UnlockedAllocAlignedMem_NoThrow S A h.state = ((P, E), s) →
      (debug = false ∨ (P = 0 → E = 0)) →
      ∃ t : TaggedMemAllocPtr,
        (LoaderHeap.RealAllocAlignedMem_NoThrow debug bits eng this S A h).1 = .ok t ∧
        t.m_pMem = ptrSub bits P E ∧ t.m_dwRequestedSize = sizeAdd bits S E ∧
        t.m_dwExtra = E ∧
        (AllocMemHolder.ctor t).dtor
          = [{ pHeap := this, pMem := ptrSub bits P E, dwSize := sizeAdd bits S E }]) ∧
    (E ≤ P → ptrSub bits P E = P - E) ∧
    (S + E < 2 ^ bits → sizeAdd bits S E = S + E) := by
  have hne : ptrSub bits P E ≠ 0 := ptrSub_ne_zero bits P E hP hE hraw
  refine ⟨?_, ?_, fun hle => ptrSub_of_le bits P E hP hle, fun hlt => sizeAdd_of_lt bits S E hlt⟩
  · intro s hs
    refine ⟨{ m_pMem := ptrSub bits P E, m_dwRequestedSize := sizeAdd bits S E,
              m_pHeap := this, m_dwExtra := E }, ?_, rfl, rfl, rfl, ?_⟩
    · simp [LoaderHeap.RealAllocAlignedMem, hs]
    · simp [AllocMemHolder.dtor, AllocMemHolder.ctor, hne]
  · intro debug s hs hassert
    refine ⟨{ m_pMem := ptrSub bits P E, m_dwRequestedSize := sizeAdd bits S E,
              m_pHeap := this, m_dwExtra := E }, ?_, rfl, rfl, rfl, ?_⟩
    · have hguard : (debug && (P == 0 && E != 0)) = false := by
        rcases hassert with hd | hpe
        · simp [hd]
        · by_cases hp0 : P = 0
          · simp [hp0, hpe hp0]
          · simp [hp0]
      simp [LoaderHeap.RealAllocAlignedMem_NoThrow, hs, hguard]
    · simp [AllocMemHolder.dtor, AllocMemHolder.ctor, hne]

/-- C2 on the bump engine with 64-bit pointers: a 24-byte request aligned to 16 at cursor
`4100` gets `P = 4112`, `E = 12`; the holder backs out `(4100, 36)`. -/
theorem RealAllocAlignedMem_backout_bounds_witness :
    (∃ t : TaggedMemAllocPtr,
      (LoaderHeap.RealAllocAlignedMem 64 bumpEngine 7 24 16 ⟨4100, []⟩).1 = .ok t ∧
      t.m_pMem = ptrSub 64 4112 12 ∧ t.m_dwRequestedSize = sizeAdd 64 24 12 ∧
      t.m_dwExtra = 12 ∧
      (AllocMemHolder.ctor t).dtor
        = [{ pHeap := 7, pMem := ptrSub 64 4112 12, dwSize := sizeAdd 64 24 12 }]) ∧
    ptrSub 64 4112 12 = 4100 ∧ sizeAdd 64 24 12 = 36 :=
  ⟨(RealAllocAlignedMem_backout_bounds 64 bumpEngine 7 24 16 4112 12 ⟨4100, []⟩
      (by norm_num) (by norm_num) (by norm_num)).1 (4112 + 24) rfl,
   by decide, by decide⟩

/-- C3: for every pointer `P` and padding `E` returned by the underlying aligned allocator,
the tagged result of `RealAllocAlignedMem` and of `RealAllocAlignedMem_NoThrow` converts
(`operator void*`, `m_pMem + m_dwExtra`) to exactly `P`; so it is a multiple of the
alignment `A` whenever `P` is, and it is null exactly when `P` is. The no-throw failure
case `P = NULL`, `E = 0` is included; a null `P` with non-zero `E` trips the `_ASSERTE`
of the no-throw variant in debug builds, so debug builds assume `P = 0 → E = 0`. -/
theorem RealAllocAlignedMem_toVoidPtr {σ : Type} (bits : Nat)
    (eng : UnlockedLoaderHeap σ) (this S A P E : Nat) (h : Heap σ)
    (hP : P < 2 ^ bits) (hE : E < 2 ^ bits) :
    (∀ s : σ, eng.UnlockedAllocAlignedMem S A h.state = (some (P, E), s) →
      ∃ t : TaggedMemAllocPtr,
        (LoaderHeap.RealAllocAlignedMem bits eng this S A h).1 = .ok t ∧
        t.toVoidPtr bits = P ∧
        (P % A = 0 → t.toVoidPtr bits % A = 0) ∧
        (t.toVoidPtr bits = 0 ↔ P = 0)) ∧
    (∀ (debug : Bool) (s : σ),
      eng.UnlockedAllocAlignedMem_NoThrow S A h.state = ((P, E), s) →
      (debug = false ∨ (P = 0 → E = 0)) →
      ∃ t : TaggedMemAllocPtr,
        (LoaderHeap.RealAllocAlignedMem_NoThrow debug bits eng this S A h).1 = .ok t ∧
        t.toVoidPtr bits = P ∧
        (P % A = 0 → t.toVoidPtr bits % A = 0) ∧
        (t.toVoidPtr bits = 0 ↔ P = 0)) := by
  have hconv : ptrAdd bits (ptrSub bits P E) E = P := ptrAdd_ptrSub bits P E hP hE
  constructor
  · intro s hs
    refine ⟨{ m_pMem := ptrSub bits P E, m_dwRequestedSize := sizeAdd bits S E,
              m_pHeap := this, m_dwExtra := E }, ?_, hconv, ?_, ?_⟩
    · simp [LoaderHeap.RealAllocAlignedMem, hs]
    · intro hA
      simpa [TaggedMemAllocPtr.toVoidPtr, hconv] using hA
    · simp [TaggedMemAllocPtr.toVoidPtr, hconv]
  · intro debug s hs hassert
    refine ⟨{ m_pMem := ptrSub bits P E, m_dwRequestedSize := sizeAdd bits S E,
              m_pHeap := this, m_dwExtra := E }, ?_, hconv, ?_, ?_⟩
    · have hguard : (debug && (P == 0 && E != 0)) = false := by
        rcases hassert with hd | hpe
        · simp [hd]
        · by_cases hp0 : P = 0
          · simp [hp0, hpe hp0]
          · simp [hp0]
      simp [LoaderHeap.RealAllocAlignedMem_NoThrow, hs, hguard]
    · intro hA
      simpa [TaggedMemAllocPtr.toVoidPtr, hconv] using hA
    · simp [TaggedMemAllocPtr.toVoidPtr, hconv]

/-- C3 on the bump engine with 64-bit pointers, debug build, no-throw variant: the caller
sees the aligned pointer `4112`. -/
theorem RealAllocAlignedMem_toVoidPtr_witness :
    ∃ t : TaggedMemAllocPtr,
      (LoaderHeap.RealAllocAlignedMem_NoThrow true 64 bumpEngine 7 24 16 ⟨4100, []⟩).1 = .ok t ∧
      t.toVoidPtr 64 = 4112 ∧
      (4112 % 16 = 0 → t.toVoidPtr 64 % 16 = 0) ∧
      (t.toVoidPtr 64 = 0 ↔ 4112 = 0) :=
  (RealAllocAlignedMem_toVoidPtr 64 bumpEngine 7 24 16 4112 12 ⟨4100, []⟩
    (by norm_num) (by norm_num)).2 true (4112 + 24) rfl (Or.inr (by norm_num))

/-! ## C4: `SuppressRelease` -/

/-- C4: after `SuppressRelease` the destructor makes no backout call, whatever the holder
held; `SuppressRelease` leaves the stored tagged result, and hence the pointer the holder
converts to, unchanged, and the acquired flag is the only field it writes. -/
theorem SuppressRelease_disarms (h : AllocMemHolder) :
    h.SuppressRelease.dtor = [] ∧
    h.SuppressRelease.m_value = h.m_value ∧
    h.SuppressRelease.m_fAcquired = false ∧
    (∀ bits : Nat, h.SuppressRelease.toPtr bits = h.toPtr bits) ∧
    h.SuppressRelease.isNull = h.isNull := by
  refine ⟨?_, rfl, rfl, fun _ => rfl, rfl⟩
  simp [AllocMemHolder.dtor, AllocMemHolder.SuppressRelease]

/-! ## C5, C6: unaligned allocations -/

/-- C5: when the `S_SIZE_T` argument is in its overflow state, `RealAllocMem_NoThrow`
returns a tagged result with `m_pMem = NULL` and `m_dwExtra = 0`, which converts to the
null pointer and over which a holder never backs out, and `RealAllocMem` throws
out-of-memory; in both cases the heap (engine state and log of engine calls) is returned
unchanged: the underlying allocator is not called. -/
theorem RealAllocMem_overflow {σ : Type} (eng : UnlockedLoaderHeap σ) (this : Nat)
    (dwSize : S_SIZE_T) (h : Heap σ) (hov : dwSize.IsOverflow = true) :
    (∃ t : TaggedMemAllocPtr,
      LoaderHeap.RealAllocMem_NoThrow eng this dwSize h = (.ok t, h) ∧
      t.m_pMem = 0 ∧ t.m_dwExtra = 0 ∧
      (∀ bits : Nat, t.toVoidPtr bits = 0) ∧
      (AllocMemHolder.ctor t).dtor = []) ∧
    LoaderHeap.RealAllocMem eng this dwSize h = (.error .OutOfMemory, h) := by
  constructor
  · refine ⟨{ m_pMem := 0, m_dwRequestedSize := dwSize.Value, m_pHeap := this, m_dwExtra := 0 },
      ?_, rfl, rfl, ?_, ?_⟩
    · simp [LoaderHeap.RealAllocMem_NoThrow, hov]
    · intro bits
      simp [TaggedMemAllocPtr.toVoidPtr, ptrAdd]
    · simp [AllocMemHolder.dtor, AllocMemHolder.ctor]
  · simp [LoaderHeap.RealAllocMem, hov]

/-- C5 on the bump engine: an overflowed size leaves the cursor at `4096` and the call log
empty, and the throwing variant reports out-of-memory. -/
theorem RealAllocMem_overflow_witness :
    LoaderHeap.RealAllocMem bumpEngine 7 { m_value := 5, m_overflow := true } ⟨4096, []⟩
      = (.error .OutOfMemory, ⟨4096, []⟩) :=
  (RealAllocMem_overflow bumpEngine 7 { m_value := 5, m_overflow := true } ⟨4096, []⟩ rfl).2

/-- C6: for a size `S` that is not in the overflow state, the tagged result of
`RealAllocMem` (when the underlying allocator returns `P`; when it throws, so does
`RealAllocMem`) and of `RealAllocMem_NoThrow` has `m_dwExtra = 0`,
`m_dwRequestedSize = S`, `m_pHeap` the allocating heap, and converts to exactly the pointer
`P` the underlying unaligned allocator returned, null included; the allocator is called
once with `S`. -/
theorem RealAllocMem_tagged {σ : Type} (bits : Nat) (eng : UnlockedLoaderHeap σ) (this : Nat)
    (dwSize : S_SIZE_T) (h : Heap σ) (hov : dwSize.IsOverflow = false) :
    (∀ (P : Nat) (s : σ), eng.UnlockedAllocMem dwSize.Value h.state = (some P, s) →
      P < 2 ^ bits →
      ∃ t : TaggedMemAllocPtr,
        LoaderHeap.RealAllocMem eng this dwSize h
          = (.ok t, ⟨s, h.calls ++ [.UnlockedAllocMem dwSize.Value]⟩) ∧
        t.m_dwExtra = 0 ∧ t.m_dwRequestedSize = dwSize.Value ∧ t.m_pHeap = this ∧
        t.m_pMem = P ∧ t.toVoidPtr bits = P) ∧
    (∀ s : σ, eng.UnlockedAllocMem dwSize.Value h.state = (none, s) →
      LoaderHeap.RealAllocMem eng this dwSize h
        = (.error .OutOfMemory, ⟨s, h.calls ++ [.UnlockedAllocMem dwSize.Value]⟩)) ∧
    (∀ (P : Nat) (s : σ), eng.UnlockedAllocMem_NoThrow dwSize.Value h.state = (P, s) →
      P < 2 ^ bits →
      ∃ t : TaggedMemAllocPtr,
        LoaderHeap.RealAllocMem_NoThrow eng this dwSize h
          = (.ok t, ⟨s, h.calls ++ [.UnlockedAllocMem_NoThrow dwSize.Value]⟩) ∧
        t.m_dwExtra = 0 ∧ t.m_dwRequestedSize = dwSize.Value ∧ t.m_pHeap = this ∧
        t.m_pMem = P ∧ t.toVoidPtr bits = P ∧ (t.toVoidPtr bits = 0 ↔ P = 0)) := by
  refine ⟨?_, ?_, ?_⟩
  · intro P s hs hP
    refine ⟨{ m_pMem := P, m_dwRequestedSize := dwSize.Value, m_pHeap := this, m_dwExtra := 0 },
      ?_, rfl, rfl, rfl, rfl, ptrAdd_zero bits P hP⟩
    simp [LoaderHeap.RealAllocMem, LoaderHeap.RealAllocMemUnsafe, hov, hs, Heap.record]
  · intro s hs
    simp [LoaderHeap.RealAllocMem, LoaderHeap.RealAllocMemUnsafe, hov, hs, Heap.record]
  · intro P s hs hP
    have hconv : ptrAdd bits P 0 = P := ptrAdd_zero bits P hP
    refine ⟨{ m_pMem := P, m_dwRequestedSize := dwSize.Value, m_pHeap := this, m_dwExtra := 0 },
      ?_, rfl, rfl, rfl, rfl, hconv, ?_⟩
    · simp [LoaderHeap.RealAllocMem_NoThrow, LoaderHeap.RealAllocMemUnsafe_NoThrow, hov, hs,
        Heap.record]
    · simp [TaggedMemAllocPtr.toVoidPtr, hconv]

/-- C6 on the bump engine with 64-bit pointers: a 40-byte request at cursor `4096`. -/
theorem RealAllocMem_tagged_witness :
    ∃ t : TaggedMemAllocPtr,
      LoaderHeap.RealAllocMem bumpEngine 7 { m_value := 40, m_overflow := false } ⟨4096, []⟩
        = (.ok t, ⟨4136, [] ++ [.UnlockedAllocMem 40]⟩) ∧
      t.m_dwExtra = 0 ∧ t.m_dwRequestedSize = 40 ∧ t.m_pHeap = 7 ∧
      t.m_pMem = 4096 ∧ t.toVoidPtr 64 = 4096 :=
  (RealAllocMem_tagged 64 bumpEngine 7 { m_value := 40, m_overflow := false } ⟨4096, []⟩
    rfl).1 4096 4136 rfl (by norm_num)

/-! ## Lemmas on holder programs -/

theorem findHolder_setHolder (id : Nat) (h x : AllocMemHolder)
    (hs : List (Nat × AllocMemHolder)) (hfind : findHolder id hs = some h) :
    findHolder id (setHolder id x hs) = some x := by
  induction hs with
  | nil => simp [findHolder] at hfind
  | cons p rest ih =>
    obtain ⟨k, y⟩ := p
    by_cases hk : k = id
    · simp [setHolder, findHolder, hk]
    · simp only [findHolder, hk, if_false] at hfind
      simp [setHolder, findHolder, hk, ih hfind]

theorem armedFor_setHolder (c : BackoutCall) (id : Nat) (h x : AllocMemHolder)
    (hs : List (Nat × AllocMemHolder)) (hfind : findHolder id hs = some h) :
    armedFor c (setHolder id x hs) + h.dtor.count c = armedFor c hs + x.dtor.count c := by
  induction hs with
  | nil => simp [findHolder] at hfind
  | cons p rest ih =>
    obtain ⟨k, y⟩ := p
    by_cases hk : k = id
    · simp only [findHolder, hk, if_true, Option.some.injEq] at hfind
      subst hfind
      simp only [setHolder, hk, if_true, armedFor]
      omega
    · simp only [findHolder, hk, if_false] at hfind
      have := ih hfind
      simp only [setHolder, hk, if_false, armedFor]
      omega

theorem armedFor_dropHolder (c : BackoutCall) (id : Nat) (h : AllocMemHolder)
    (hs : List (Nat × AllocMemHolder)) (hfind : findHolder id hs = some h) :
    armedFor c (dropHolder id hs) + h.dtor.count c = armedFor c hs := by
  induction hs with
  | nil => simp [findHolder] at hfind
  | cons p rest ih =>
    obtain ⟨k, y⟩ := p
    by_cases hk : k = id
    · simp only [findHolder, hk, if_true, Option.some.injEq] at hfind
      subst hfind
      simp only [dropHolder, hk, if_true, armedFor]
      omega
    · simp only [findHolder, hk, if_false] at hfind
      have := ih hfind
      simp only [dropHolder, hk, if_false, armedFor]
      omega

theorem dtor_ctor_count_le (c : BackoutCall) (value : TaggedMemAllocPtr) :
    (AllocMemHolder.ctor value).dtor.count c ≤ (if value.block = c then 1 else 0) := by
  by_cases hp : value.m_pMem = 0
  · simp [AllocMemHolder.dtor, AllocMemHolder.ctor, hp]
  · by_cases hb : value.block = c
    · subst hb
      simp [AllocMemHolder.dtor, AllocMemHolder.ctor, hp, TaggedMemAllocPtr.block]
    · have hb' : ¬ ({ pHeap := value.m_pHeap, pMem := value.m_pMem,
                      dwSize := value.m_dwRequestedSize } : BackoutCall) = c := hb
      simp [AllocMemHolder.dtor, AllocMemHolder.ctor, hp, hb, List.count_singleton, hb']

theorem dtor_ctorDefault_count (c : BackoutCall) :
    AllocMemHolder.ctorDefault.dtor.count c = 0 := by
  simp [AllocMemHolder.dtor, AllocMemHolder.ctorDefault]

theorem dtor_SuppressRelease_count (c : BackoutCall) (h : AllocMemHolder) :
    h.SuppressRelease.dtor.count c = 0 := by
  simp [AllocMemHolder.dtor, AllocMemHolder.SuppressRelease]

theorem assign_ok (debug : Bool) (h x : AllocMemHolder) (value : TaggedMemAllocPtr)
    (hok : h.assign debug value = .ok x) : x = AllocMemHolder.ctor value := by
  unfold AllocMemHolder.assign at hok
  split at hok
  · cases hok
  · cases hok
    rfl

/-- One operation adds at most its own hand-over to the armed holders and backouts of a
block. -/
theorem step_armed_backouts (debug : Bool) (c : BackoutCall) (sc sc' : Scope) (op : HolderOp)
    (hstep : step debug sc op = .ok sc') :
    armedFor c sc'.holders + sc'.backouts.count c
      ≤ armedFor c sc.holders + sc.backouts.count c + handOvers c [op] := by
  cases op with
  | ctorDefault id =>
    simp only [step] at hstep
    split at hstep
    · cases hstep
    · cases hstep
      have := dtor_ctorDefault_count c
      simp only [armedFor, handOvers]
      omega
  | ctor id value =>
    simp only [step] at hstep
    split at hstep
    · cases hstep
    · cases hstep
      have := dtor_ctor_count_le c value
      simp only [armedFor, handOvers]
      omega
  | assign id value =>
    simp only [step] at hstep
    split at hstep
    · cases hstep
    · rename_i h hfind
      split at hstep
      · cases hstep
      · rename_i x hx
        cases hstep
        have hx' := assign_ok debug h x value hx
        subst hx'
        have h1 := armedFor_setHolder c id h (AllocMemHolder.ctor value) sc.holders hfind
        have h2 := dtor_ctor_count_le c value
        simp only [handOvers]
        omega
  | SuppressRelease id =>
    simp only [step] at hstep
    split at hstep
    · cases hstep
    · rename_i h hfind
      cases hstep
      have h1 := armedFor_setHolder c id h h.SuppressRelease sc.holders hfind
      have h2 := dtor_SuppressRelease_count c h
      simp only [handOvers]
      omega
  | dtor id =>
    simp only [step] at hstep
    split at hstep
    · cases hstep
    · rename_i h hfind
      cases hstep
      have h1 := armedFor_dropHolder c id h sc.holders hfind
      simp only [handOvers, List.count_append]
      omega

theorem handOvers_cons (c : BackoutCall) (op : HolderOp) (ops : List HolderOp) :
    handOvers c (op :: ops) = handOvers c [op] + handOvers c ops := by
  cases op <;> simp [handOvers]

/-- Over a whole program the armed holders and backouts of a block grow by at most the
number of hand-overs of that block. -/
theorem run_armed_backouts (debug : Bool) (c : BackoutCall) (ops : List HolderOp) :
    ∀ sc sc' : Scope, run debug sc ops = .ok sc' →
      armedFor c sc'.holders + sc'.backouts.count c
        ≤ armedFor c sc.holders + sc.backouts.count c + handOvers c ops := by
  induction ops with
  | nil =>
    intro sc sc' hrun
    simp only [run, Except.ok.injEq] at hrun
    subst hrun
    simp [handOvers]
  | cons op ops ih =>
    intro sc sc' hrun
    simp only [run] at hrun
    split at hrun
    · cases hrun
    · rename_i mid hmid
      have h1 := step_armed_backouts debug c sc mid op hmid
      have h2 := ih mid sc' hrun
      rw [handOvers_cons]
      omega

theorem handOvers_take_le (c : BackoutCall) (ops : List HolderOp) :
    ∀ n : Nat, handOvers c (ops.take n) ≤ handOvers c ops := by
  induction ops with
  | nil => intro n; simp [handOvers]
  | cons op ops ih =>
    intro n
    cases n with
    | zero => simp [handOvers]
    | succ n =>
      have := ih n
      rw [List.take_succ_cons, handOvers_cons c op (ops.take n), handOvers_cons c op ops]
      omega

/-! ## C7: releasing twice -/

/-- C7, as the code behaves: in a debug build, `SuppressRelease` on the already released
holder `0` does not trip an assertion; the program continues with the scope unchanged. -/
theorem SuppressRelease_twice_no_assertion :
    step true
        { holders := [(0, { m_value := { m_pMem := 4096, m_dwRequestedSize := 16, m_pHeap := 7,
                                         m_dwExtra := 0 },
                            m_fAcquired := false })],
          backouts := [] }
        (.SuppressRelease 0)
      ≠ .error .AssertionFailed ∧
    run true Scope.empty
        [.ctor 0 { m_pMem := 4096, m_dwRequestedSize := 16, m_pHeap := 7, m_dwExtra := 0 },
         .SuppressRelease 0, .SuppressRelease 0]
      = .ok { holders := [(0, { m_value := { m_pMem := 4096, m_dwRequestedSize := 16,
                                             m_pHeap := 7, m_dwExtra := 0 },
                                m_fAcquired := false })],
              backouts := [] } := by
  constructor
  · intro hcontra
    cases hcontra
  · rfl

/-- C7, amended: `SuppressRelease` carries no assertion. Called on a live holder that is
already released, in a debug or a release build, it is accepted, leaves that holder as it
was and makes no backout call. -/
theorem SuppressRelease_released_accepted (debug : Bool) (sc : Scope) (id : Nat)
    (h : AllocMemHolder) (hfind : findHolder id sc.holders = some h)
    (hrel : h.m_fAcquired = false) :
    ∃ sc' : Scope, step debug sc (.SuppressRelease id) = .ok sc' ∧
      findHolder id sc'.holders = some h ∧ sc'.backouts = sc.backouts ∧
      h.SuppressRelease = h := by
  have hsame : h.SuppressRelease = h := by
    cases h with
    | mk v a =>
      simp only at hrel
      subst hrel
      rfl
  refine ⟨{ sc with holders := setHolder id h.SuppressRelease sc.holders }, ?_, ?_, rfl, hsame⟩
  · simp [step, hfind]
  · have := findHolder_setHolder id h h.SuppressRelease sc.holders hfind
    rw [hsame] at this
    rw [hsame]
    exact this

/-- C7 amended, at a concrete released holder in a debug build. -/
theorem SuppressRelease_released_accepted_witness :
    ∃ sc' : Scope,
      step true { holders := [(3, AllocMemHolder.ctorDefault)], backouts := [] }
        (.SuppressRelease 3) = .ok sc' ∧
      findHolder 3 sc'.holders = some AllocMemHolder.ctorDefault ∧
      sc'.backouts = [] ∧
      AllocMemHolder.ctorDefault.SuppressRelease = AllocMemHolder.ctorDefault :=
  SuppressRelease_released_accepted true
    { holders := [(3, AllocMemHolder.ctorDefault)], backouts := [] } 3
    AllocMemHolder.ctorDefault rfl rfl

/-! ## C8: one armed holder per allocation -/

/-- C8, as the code behaves: the class lets two holders be constructed from the same
tagged result; both are armed at once, and destroying both backs out the block twice. -/
theorem two_holders_back_out_twice :
    (∃ sc : Scope,
      run true Scope.empty
        [.ctor 0 { m_pMem := 4096, m_dwRequestedSize := 16, m_pHeap := 7, m_dwExtra := 0 },
         .ctor 1 { m_pMem := 4096, m_dwRequestedSize := 16, m_pHeap := 7, m_dwExtra := 0 }]
        = .ok sc ∧
      armedFor { pHeap := 7, pMem := 4096, dwSize := 16 } sc.holders = 2) ∧
    (∃ sc : Scope,
      run true Scope.empty
        [.ctor 0 { m_pMem := 4096, m_dwRequestedSize := 16, m_pHeap := 7, m_dwExtra := 0 },
         .ctor 1 { m_pMem := 4096, m_dwRequestedSize := 16, m_pHeap := 7, m_dwExtra := 0 },
         .dtor 0, .dtor 1]
        = .ok sc ∧
      sc.backouts = [{ pHeap := 7, pMem := 4096, dwSize := 16 },
                     { pHeap := 7, pMem := 4096, dwSize := 16 }] ∧
      ¬ sc.backouts.count { pHeap := 7, pMem := 4096, dwSize := 16 } ≤ 1) := by
  refine ⟨⟨_, rfl, ?_⟩, ⟨_, rfl, rfl, ?_⟩⟩
  · decide
  · decide

/-- C8, amended: provided the tagged result of an allocation is handed to a holder at most
once (one construction from it or one assignment of it in the whole program), then over
every program of holder operations (default construction, construction from a tagged
result, assignment of a tagged result, `SuppressRelease`, destruction), in debug and in
release builds, at every point of the program at most one holder is armed for that
allocation, and backout is invoked at most once for it; an armed holder and a backout for
it never coexist. -/
theorem holder_backout_at_most_once (debug : Bool) (t : TaggedMemAllocPtr)
    (ops : List HolderOp) (hone : handOvers t.block ops ≤ 1) :
    ∀ (n : Nat) (sc : Scope), run debug Scope.empty (ops.take n) = .ok sc →
      armedFor t.block sc.holders ≤ 1 ∧
      sc.backouts.count t.block ≤ 1 ∧
      armedFor t.block sc.holders + sc.backouts.count t.block ≤ 1 := by
  intro n sc hrun
  have h1 := run_armed_backouts debug t.block (ops.take n) Scope.empty sc hrun
  have h2 := handOvers_take_le t.block ops n
  simp only [Scope.empty, armedFor, List.count_nil] at h1
  omega

/-- C8 amended, on a debug-build program that allocates once, arms one holder by
assignment and destroys it: exactly one backout. -/
theorem holder_backout_at_most_once_witness :
    ∃ sc : Scope,
      run true Scope.empty
        ([HolderOp.ctorDefault 0,
          .assign 0 { m_pMem := 4096, m_dwRequestedSize := 16, m_pHeap := 7, m_dwExtra := 0 },
          .dtor 0].take 3) = .ok sc ∧
      sc.backouts = [{ pHeap := 7, pMem := 4096, dwSize := 16 }] ∧
      (armedFor { pHeap := 7, pMem := 4096, dwSize := 16 } sc.holders ≤ 1 ∧
       sc.backouts.count { pHeap := 7, pMem := 4096, dwSize := 16 } ≤ 1 ∧
       armedFor { pHeap := 7, pMem := 4096, dwSize := 16 } sc.holders
         + sc.backouts.count { pHeap := 7, pMem := 4096, dwSize := 16 } ≤ 1) :=
  ⟨_, rfl, rfl,
    holder_backout_at_most_once true
      { m_pMem := 4096, m_dwRequestedSize := 16, m_pHeap := 7, m_dwExtra := 0 }
      [HolderOp.ctorDefault 0,
       .assign 0 { m_pMem := 4096, m_dwRequestedSize := 16, m_pHeap := 7, m_dwExtra := 0 },
       .dtor 0]
      (by decide) 3 _ rfl⟩

/-! ## C9: stub allocations -/

/-- C9: when `UnlockedAllocStub` returns `P`, the tagged result of `RealAllocStub` carries
`m_pMem = P`, `m_dwExtra = 0` and `m_pHeap` the interleaved heap (and converts to `P`); an
armed holder destroyed over it calls `RealBackoutMem` on that heap with pointer `P`, and
`InterleavedLoaderHeap::RealBackoutMem` calls `UnlockedBackoutStub` with exactly `P`
whatever size argument it is given. -/
theorem RealAllocStub_backout {σ : Type} (bits : Nat) (eng : UnlockedInterleavedLoaderHeap σ)
    (this P : Nat) (s : σ) (h : Heap σ)
    (halloc : eng.UnlockedAllocStub h.state = (some P, s)) (hP : P < 2 ^ bits) :
    ∃ t : TaggedMemAllocPtr,
      InterleavedLoaderHeap.RealAllocStub eng this h
        = (.ok t, ⟨s, h.calls ++ [.UnlockedAllocStub]⟩) ∧
      t.m_pMem = P ∧ t.m_dwExtra = 0 ∧ t.m_pHeap = this ∧ t.toVoidPtr bits = P ∧
      (P ≠ 0 →
        (AllocMemHolder.ctor t).dtor = [{ pHeap := this, pMem := P, dwSize := 1 }]) ∧
      (∀ (dwSize : Nat) (h' : Heap σ),
        InterleavedLoaderHeap.RealBackoutMem eng t.m_pMem dwSize h'
          = ⟨eng.UnlockedBackoutStub P h'.state, h'.calls ++ [.UnlockedBackoutStub P]⟩) := by
  refine ⟨{ m_pMem := P, m_dwRequestedSize := 1, m_pHeap := this, m_dwExtra := 0 },
    ?_, rfl, rfl, rfl, ptrAdd_zero bits P hP, ?_, ?_⟩
  · simp [InterleavedLoaderHeap.RealAllocStub, halloc, Heap.record]
  · intro hne
    simp [AllocMemHolder.dtor, AllocMemHolder.ctor, hne]
  · intro dwSize h'
    rfl

/-- C9 on the bump stub engine with 64-bit pointers: the stub at `8192` is backed out
with `UnlockedBackoutStub 8192` whatever size is passed. -/
theorem RealAllocStub_backout_witness :
    ∃ t : TaggedMemAllocPtr,
      InterleavedLoaderHeap.RealAllocStub bumpStubEngine 9 ⟨8192, []⟩
        = (.ok t, ⟨8216, [] ++ [.UnlockedAllocStub]⟩) ∧
      t.m_pMem = 8192 ∧ t.m_dwExtra = 0 ∧ t.m_pHeap = 9 ∧ t.toVoidPtr 64 = 8192 ∧
      (8192 ≠ 0 →
        (AllocMemHolder.ctor t).dtor = [{ pHeap := 9, pMem := 8192, dwSize := 1 }]) ∧
      (∀ (dwSize : Nat) (h' : Heap Nat),
        InterleavedLoaderHeap.RealBackoutMem bumpStubEngine t.m_pMem dwSize h'
          = ⟨bumpStubEngine.UnlockedBackoutStub 8192 h'.state,
             h'.calls ++ [.UnlockedBackoutStub 8192]⟩) :=
  RealAllocStub_backout 64 bumpStubEngine 9 8192 8216 ⟨8192, []⟩ rfl (by norm_num)

/-! ## C10: the interleave stride -/

/-- C10, as the code behaves: on a target that is neither ARM64-on-Unix, WASM nor ARM the
stride is the constant 16 KB; with a 64 KB OS page it is less than one OS page, and the
data slot of the stub at address `0` lies on the same OS page as its code slot. -/
theorem GetStubCodePageSize_below_os_page :
    GetStubCodePageSize
        { TARGET_ARM64 := false, TARGET_UNIX := true, TARGET_WASM := false,
          TARGET_ARM := false } 65536 = 16384 ∧
    ¬ 65536 ≤ GetStubCodePageSize
        { TARGET_ARM64 := false, TARGET_UNIX := true, TARGET_WASM := false,
          TARGET_ARM := false } 65536 ∧
    osPageOf 65536
        (stubDataSlot { TARGET_ARM64 := false, TARGET_UNIX := true, TARGET_WASM := false,
                        TARGET_ARM := false } 65536 0)
      = osPageOf 65536 0 := by
  refine ⟨by decide, by decide, by decide⟩

/-- C10, amended: for every OS page size that fits the `UINT32` result, the stride is
`max(16 KB, OS page)`, hence at least one OS page, on ARM64-on-Unix and WASM targets; it is
the constant 4096 on other ARM targets and the constant 16384 on every remaining target,
whatever the OS page size. Whenever the stride is at least one OS page, the data slot,
stride bytes after the code slot, lies on a later OS page than the code slot. -/
theorem GetStubCodePageSize_stride (t : TargetDefines) (osPageSize : Nat)
    (hps : osPageSize < 2 ^ 32) :
    (((t.TARGET_ARM64 && t.TARGET_UNIX) || t.TARGET_WASM) = true →
      GetStubCodePageSize t osPageSize = max 16384 osPageSize ∧
      osPageSize ≤ GetStubCodePageSize t osPageSize) ∧
    (((t.TARGET_ARM64 && t.TARGET_UNIX) || t.TARGET_WASM) = false → t.TARGET_ARM = true →
      GetStubCodePageSize t osPageSize = 4096) ∧
    (((t.TARGET_ARM64 && t.TARGET_UNIX) || t.TARGET_WASM) = false → t.TARGET_ARM = false →
      GetStubCodePageSize t osPageSize = 16384) ∧
    (0 < osPageSize → osPageSize ≤ GetStubCodePageSize t osPageSize →
      ∀ pCode : Nat,
        osPageOf osPageSize pCode < osPageOf osPageSize (stubDataSlot t osPageSize pCode)) := by
  refine ⟨?_, ?_, ?_, ?_⟩
  · intro hsel
    have hmax : max (16 * 1024) osPageSize < 2 ^ 32 := by
      rcases le_total (16 * 1024) osPageSize with hle | hle
      · rw [max_eq_right hle]; exact hps
      · rw [max_eq_left hle]; norm_num
    have hval : GetStubCodePageSize t osPageSize = max 16384 osPageSize := by
      unfold GetStubCodePageSize
      rw [if_pos hsel]
      exact Nat.mod_eq_of_lt hmax
    exact ⟨hval, by rw [hval]; exact le_max_right _ _⟩
  · intro hsel harm
    unfold GetStubCodePageSize
    simp [hsel, harm]
  · intro hsel harm
    unfold GetStubCodePageSize
    simp [hsel, harm]
  · intro hpos hle pCode
    unfold osPageOf stubDataSlot
    have h1 : pCode / osPageSize + 1 = (pCode + osPageSize) / osPageSize :=
      (Nat.add_div_right pCode hpos).symm
    have h2 : (pCode + osPageSize) / osPageSize
        ≤ (pCode + GetStubCodePageSize t osPageSize) / osPageSize :=
      Nat.div_le_div_right (by omega)
    omega

/-- C10 amended, on ARM64 Unix with 64 KB OS pages: the stride is 64 KB and the data slot
of the stub at `4096` lies on the next OS page. -/
theorem GetStubCodePageSize_stride_witness :
    GetStubCodePageSize
        { TARGET_ARM64 := true, TARGET_UNIX := true, TARGET_WASM := false,
          TARGET_ARM := false } 65536 = max 16384 65536 ∧
    65536 ≤ GetStubCodePageSize
        { TARGET_ARM64 := true, TARGET_UNIX := true, TARGET_WASM := false,
          TARGET_ARM := false } 65536 :=
  (GetStubCodePageSize_stride
    { TARGET_ARM64 := true, TARGET_UNIX := true, TARGET_WASM := false, TARGET_ARM := false }
    65536 (by norm_num)).1 rfl

end LoaderHeapModel

namespace LoaderHeapModel

/-! ## C11: the critical section around the engine calls -/

theorem newEvents_append (before added : List HeapEvent) :
    newEvents before (before ++ added) = added := by
  simp [newEvents]

theorem newEvents_self (before : List HeapEvent) : newEvents before before = [] := by
  simp [newEvents]

theorem scope_events {σ α : Type} (h : LockedHeap σ) (body : Heap σ → α × Heap σ) :
    newEvents h.events (CRITSEC_Holder.scope h body).2.events
      = [.HolderCtor h.m_CriticalSection] ++ (body ⟨h.state, []⟩).2.calls.map .Engine
          ++ [.HolderDtor h.m_CriticalSection] := by
  simp only [CRITSEC_Holder.scope, List.append_assoc]
  exact newEvents_append _ _

/-- C11, as the code behaves: a `LoaderHeap` constructed with `fUnlocked = TRUE` has
`m_CriticalSection = NULL`; its `RealAllocMem` calls the engine inside a holder on the
null cookie, so no lock of the heap is held around the call. -/
theorem unlocked_heap_holds_no_lock :
    (LoaderHeap.ctor (4096 : Nat) true 77).m_CriticalSection = 0 ∧
    newEvents (LoaderHeap.ctor (4096 : Nat) true 77).events
        (Locked.LoaderHeap.RealAllocMem bumpEngine 7 { m_value := 40, m_overflow := false }
          (LoaderHeap.ctor (4096 : Nat) true 77)).2.events
      = [.HolderCtor 0, .Engine (.UnlockedAllocMem 40), .HolderDtor 0] ∧
    ¬ ∃ lock : Nat,
        heldLockAround lock
          (newEvents (LoaderHeap.ctor (4096 : Nat) true 77).events
            (Locked.LoaderHeap.RealAllocMem bumpEngine 7 { m_value := 40, m_overflow := false }
              (LoaderHeap.ctor (4096 : Nat) true 77)).2.events) := by
  have hev : newEvents (LoaderHeap.ctor (4096 : Nat) true 77).events
        (Locked.LoaderHeap.RealAllocMem bumpEngine 7 { m_value := 40, m_overflow := false }
          (LoaderHeap.ctor (4096 : Nat) true 77)).2.events
      = [.HolderCtor 0, .Engine (.UnlockedAllocMem 40), .HolderDtor 0] := by decide
  refine ⟨rfl, hev, ?_⟩
  rintro ⟨lock, hne, c, hc⟩
  rw [hev] at hc
  simp only [List.cons.injEq, HeapEvent.HolderCtor.injEq] at hc
  exact hne hc.1.symm

/-- C11, amended: every allocation and backout entry point of `LoaderHeap` and
`InterleavedLoaderHeap` makes its call into the unlocked engine inside the scope of a
`CRITSEC_Holder` on the heap's `m_CriticalSection`: the holder is constructed before the
call and destroyed after it on every exit path, failure included (`RealAllocMem` and
`RealAllocMem_NoThrow` with an overflowed size return before that and make no engine
call). `m_CriticalSection` is the heap's lock when the heap was constructed with
`fUnlocked = FALSE`, in which case the lock is held around the call, and is `NULL` when
it was constructed with `fUnlocked = TRUE`. -/
theorem locked_entry_points_holder_scope {σ : Type} (debug : Bool) (bits : Nat)
    (eng : UnlockedLoaderHeap σ) (ieng : UnlockedInterleavedLoaderHeap σ) (this : Nat)
    (h : LockedHeap σ) :
    (∀ dwSize : S_SIZE_T,
      newEvents h.events (Locked.LoaderHeap.RealAllocMem eng this dwSize h).2.events
        = if dwSize.IsOverflow then []
          else [.HolderCtor h.m_CriticalSection, .Engine (.UnlockedAllocMem dwSize.Value),
                .HolderDtor h.m_CriticalSection]) ∧
    (∀ dwSize : S_SIZE_T,
      newEvents h.events (Locked.LoaderHeap.RealAllocMem_NoThrow eng this dwSize h).2.events
        = if dwSize.IsOverflow then []
          else [.HolderCtor h.m_CriticalSection,
                .Engine (.UnlockedAllocMem_NoThrow dwSize.Value),
                .HolderDtor h.m_CriticalSection]) ∧
    (∀ S A : Nat,
      newEvents h.events (Locked.LoaderHeap.RealAllocAlignedMem bits eng this S A h).2.events
        = [.HolderCtor h.m_CriticalSection, .Engine (.UnlockedAllocAlignedMem S A),
           .HolderDtor h.m_CriticalSection]) ∧
    (∀ S A : Nat,
      newEvents h.events
          (Locked.LoaderHeap.RealAllocAlignedMem_NoThrow debug bits eng this S A h).2.events
        = [.HolderCtor h.m_CriticalSection, .Engine (.UnlockedAllocAlignedMem_NoThrow S A),
           .HolderDtor h.m_CriticalSection]) ∧
    (∀ pMem dwSize : Nat,
      newEvents h.events (Locked.LoaderHeap.RealBackoutMem eng pMem dwSize h).events
        = [.HolderCtor h.m_CriticalSection, .Engine (.UnlockedBackoutMem pMem dwSize),
           .HolderDtor h.m_CriticalSection]) ∧
    (newEvents h.events (Locked.InterleavedLoaderHeap.RealAllocStub ieng this h).2.events
        = [.HolderCtor h.m_CriticalSection, .Engine .UnlockedAllocStub,
           .HolderDtor h.m_CriticalSection]) ∧
    (∀ pMem dwSize : Nat,
      newEvents h.events (Locked.InterleavedLoaderHeap.RealBackoutMem ieng pMem dwSize h).events
        = [.HolderCtor h.m_CriticalSection, .Engine (.UnlockedBackoutStub pMem),
           .HolderDtor h.m_CriticalSection]) ∧
    (∀ (s : σ) (fUnlocked : Bool) (lock : Nat),
      (LoaderHeap.ctor s fUnlocked lock).m_CriticalSection = (if fUnlocked then 0 else lock) ∧
      (InterleavedLoaderHeap.ctor s fUnlocked lock).m_CriticalSection
        = (if fUnlocked then 0 else lock)) ∧
    (h.m_CriticalSection ≠ 0 →
      (∀ dwSize : S_SIZE_T, dwSize.IsOverflow = false →
        heldLockAround h.m_CriticalSection
          (newEvents h.events (Locked.LoaderHeap.RealAllocMem eng this dwSize h).2.events) ∧
        heldLockAround h.m_CriticalSection
          (newEvents h.events
            (Locked.LoaderHeap.RealAllocMem_NoThrow eng this dwSize h).2.events)) ∧
      (∀ S A : Nat,
        heldLockAround h.m_CriticalSection
          (newEvents h.events
            (Locked.LoaderHeap.RealAllocAlignedMem bits eng this S A h).2.events) ∧
        heldLockAround h.m_CriticalSection
          (newEvents h.events
            (Locked.LoaderHeap.RealAllocAlignedMem_NoThrow debug bits eng this S A h).2.events)) ∧
      (∀ pMem dwSize : Nat,
        heldLockAround h.m_CriticalSection
          (newEvents h.events (Locked.LoaderHeap.RealBackoutMem eng pMem dwSize h).events) ∧
        heldLockAround h.m_CriticalSection
          (newEvents h.events
            (Locked.InterleavedLoaderHeap.RealBackoutMem ieng pMem dwSize h).events)) ∧
      heldLockAround h.m_CriticalSection
        (newEvents h.events (Locked.InterleavedLoaderHeap.RealAllocStub ieng this h).2.events)) := by
  have e1 : ∀ dwSize : S_SIZE_T,
      newEvents h.events (Locked.LoaderHeap.RealAllocMem eng this dwSize h).2.events
        = if dwSize.IsOverflow then []
          else [.HolderCtor h.m_CriticalSection, .Engine (.UnlockedAllocMem dwSize.Value),
                .HolderDtor h.m_CriticalSection] := by
    intro dwSize
    unfold Locked.LoaderHeap.RealAllocMem
    by_cases hov : dwSize.IsOverflow = true
    · simp [hov, newEvents_self]
    · simp only [hov, if_false, Locked.LoaderHeap.RealAllocMemUnsafe, Bool.false_eq_true]
      rw [scope_events]
      unfold LoaderHeapModel.LoaderHeap.RealAllocMemUnsafe
      split <;> simp [Heap.record]
  have e2 : ∀ dwSize : S_SIZE_T,
      newEvents h.events (Locked.LoaderHeap.RealAllocMem_NoThrow eng this dwSize h).2.events
        = if dwSize.IsOverflow then []
          else [.HolderCtor h.m_CriticalSection,
                .Engine (.UnlockedAllocMem_NoThrow dwSize.Value),
                .HolderDtor h.m_CriticalSection] := by
    intro dwSize
    unfold Locked.LoaderHeap.RealAllocMem_NoThrow
    by_cases hov : dwSize.IsOverflow = true
    · simp [hov, newEvents_self]
    · simp only [hov, if_false, Locked.LoaderHeap.RealAllocMemUnsafe_NoThrow,
        Bool.false_eq_true]
      rw [scope_events]
      simp [LoaderHeapModel.LoaderHeap.RealAllocMemUnsafe_NoThrow, Heap.record]
  have e3 : ∀ S A : Nat,
      newEvents h.events (Locked.LoaderHeap.RealAllocAlignedMem bits eng this S A h).2.events
        = [.HolderCtor h.m_CriticalSection, .Engine (.UnlockedAllocAlignedMem S A),
           .HolderDtor h.m_CriticalSection] := by
    intro S A
    unfold Locked.LoaderHeap.RealAllocAlignedMem
    rw [scope_events]
    unfold LoaderHeapModel.LoaderHeap.RealAllocAlignedMem
    split <;> simp [Heap.record]
  have e4 : ∀ S A : Nat,
      newEvents h.events
          (Locked.LoaderHeap.RealAllocAlignedMem_NoThrow debug bits eng this S A h).2.events
        = [.HolderCtor h.m_CriticalSection, .Engine (.UnlockedAllocAlignedMem_NoThrow S A),
           .HolderDtor h.m_CriticalSection] := by
    intro S A
    unfold Locked.LoaderHeap.RealAllocAlignedMem_NoThrow
    rw [scope_events]
    unfold LoaderHeapModel.LoaderHeap.RealAllocAlignedMem_NoThrow
    split
    split <;> simp [Heap.record]
  have e5 : ∀ pMem dwSize : Nat,
      newEvents h.events (Locked.LoaderHeap.RealBackoutMem eng pMem dwSize h).events
        = [.HolderCtor h.m_CriticalSection, .Engine (.UnlockedBackoutMem pMem dwSize),
           .HolderDtor h.m_CriticalSection] := by
    intro pMem dwSize
    unfold Locked.LoaderHeap.RealBackoutMem
    rw [scope_events]
    simp [LoaderHeapModel.LoaderHeap.RealBackoutMem, Heap.record]
  have e6 : newEvents h.events (Locked.InterleavedLoaderHeap.RealAllocStub ieng this h).2.events
        = [.HolderCtor h.m_CriticalSection, .Engine .UnlockedAllocStub,
           .HolderDtor h.m_CriticalSection] := by
    unfold Locked.InterleavedLoaderHeap.RealAllocStub
    rw [scope_events]
    unfold LoaderHeapModel.InterleavedLoaderHeap.RealAllocStub
    split <;> simp [Heap.record]
  have e7 : ∀ pMem dwSize : Nat,
      newEvents h.events (Locked.InterleavedLoaderHeap.RealBackoutMem ieng pMem dwSize h).events
        = [.HolderCtor h.m_CriticalSection, .Engine (.UnlockedBackoutStub pMem),
           .HolderDtor h.m_CriticalSection] := by
    intro pMem dwSize
    unfold Locked.InterleavedLoaderHeap.RealBackoutMem
    rw [scope_events]
    simp [LoaderHeapModel.InterleavedLoaderHeap.RealBackoutMem, Heap.record]
  refine ⟨e1, e2, e3, e4, e5, e6, e7, fun s fUnlocked lock => ⟨rfl, rfl⟩, ?_⟩
  intro hcs
  refine ⟨?_, ?_, ?_, ?_⟩
  · intro dwSize hov
    constructor
    · rw [e1 dwSize]; simp only [hov, Bool.false_eq_true, if_false]
      exact ⟨hcs, _, rfl⟩
    · rw [e2 dwSize]; simp only [hov, Bool.false_eq_true, if_false]
      exact ⟨hcs, _, rfl⟩
  · intro S A
    exact ⟨by rw [e3 S A]; exact ⟨hcs, _, rfl⟩, by rw [e4 S A]; exact ⟨hcs, _, rfl⟩⟩
  · intro pMem dwSize
    exact ⟨by rw [e5 pMem dwSize]; exact ⟨hcs, _, rfl⟩,
           by rw [e7 pMem dwSize]; exact ⟨hcs, _, rfl⟩⟩
  · rw [e6]; exact ⟨hcs, _, rfl⟩

/-- C11 amended, on a heap constructed with `fUnlocked = FALSE` and lock `77`: the stub
allocation holds lock `77` around its engine call. -/
theorem locked_entry_points_holder_scope_witness :
    heldLockAround (InterleavedLoaderHeap.ctor (8192 : Nat) false 77).m_CriticalSection
      (newEvents (InterleavedLoaderHeap.ctor (8192 : Nat) false 77).events
        (Locked.InterleavedLoaderHeap.RealAllocStub bumpStubEngine 9
          (InterleavedLoaderHeap.ctor (8192 : Nat) false 77)).2.events) :=
  ((locked_entry_points_holder_scope true 64 bumpEngine bumpStubEngine 9
      (InterleavedLoaderHeap.ctor (8192 : Nat) false 77)).2.2.2.2.2.2.2.2
    (by decide)).2.2.2

end LoaderHeapModel

namespace EventPipeModel

/-! ## C15, C16: the filter buffer of `provider_invoke_callback` -/

theorem set_written_front (out : List Nat) (v : Nat) (k : Nat) :
    (out.map some ++ List.replicate (k + 1) none).set out.length (some v)
      = (out ++ [v]).map some ++ List.replicate k none := by
  induction out with
  | nil => simp [List.replicate_succ]
  | cons a rest ih => simpa using ih

theorem count_take_succ (s : List Nat) (n : Nat) :
    (s.take (n + 1)).count 34
      = (s.take n).count 34 + (if charAt s n = 34 then 1 else 0) := by
  rw [List.take_succ, List.count_append]
  unfold charAt
  rw [List.getD_eq_getElem?_getD]
  cases hs : s[n]? with
  | none => simp
  | some c =>
    by_cases hc : c = 34
    · simp [hc]
    · simp [hc, List.count_singleton]

theorem insideQuotes_succ (s : List Nat) (n : Nat) :
    insideQuotes s (n + 1)
      = (if charAt s n = 34 then !insideQuotes s n else insideQuotes s n) := by
  unfold insideQuotes
  rw [count_take_succ]
  by_cases hc : charAt s n = 34
  · simp only [hc, if_true]
    rcases Nat.mod_two_eq_zero_or_one ((s.take n).count 34) with h0 | h1
    · have : ((s.take n).count 34 + 1) % 2 = 1 := by omega
      simp [h0, this]
    · have : ((s.take n).count 34 + 1) % 2 = 0 := by omega
      simp [h1, this]
  · simp [hc]


theorem written_length_le (s : List Nat) (n : Nat) :
    ((List.range n).filterMap (fun i => expectedChar s i (s.getD i 0))).length ≤ n := by
  have h := List.length_filterMap_le (fun i => expectedChar s i (s.getD i 0)) (List.range n)
  simpa using h

theorem copyStep_quote (s : List Nat) (n : Nat) (st : CopyState) (hc : charAt s n = 34) :
    copyStep s st n = { st with is_quoted_value := !st.is_quoted_value } := by
  simp [copyStep, hc]

theorem copyStep_write (s : List Nat) (n : Nat) (q : Bool) (out : List Nat) (k : Nat)
    (hc : charAt s n ≠ 34) (hj : out.length + 1 < 2 ^ 32) :
    copyStep s
        { is_quoted_value := q, j := out.length,
          buffer := out.map some ++ List.replicate (k + 1) none, overrun := false } n
      = { is_quoted_value := q, j := out.length + 1,
          buffer := (out ++ [if (charAt s n = 61 || charAt s n = 59) && !q then 0
                             else charAt s n]).map some ++ List.replicate k none,
          overrun := false } := by
  unfold copyStep
  rw [if_neg hc]
  simp only [set_written_front, Nat.mod_eq_of_lt hj, Bool.false_or]
  congr 1
  simp

theorem expectedChar_write (s : List Nat) (n : Nat) (hc : charAt s n ≠ 34) :
    expectedChar s n (s.getD n 0)
      = some (if (charAt s n = 61 || charAt s n = 59) && !insideQuotes s n then 0
              else charAt s n) := by
  have hc' : ¬ s.getD n 0 = 34 := hc
  unfold expectedChar charAt
  rw [if_neg hc']
  generalize s.getD n 0 = c
  generalize insideQuotes s n = q
  cases q <;> by_cases h61 : c = 61 <;> by_cases h59 : c = 59 <;> simp [h61, h59]

theorem expectedChar_quote (s : List Nat) (n : Nat) (hc : charAt s n = 34) :
    expectedChar s n (s.getD n 0) = none := by
  have hc' : s.getD n 0 = 34 := hc
  unfold expectedChar
  rw [if_pos hc']

theorem copy_loop_invariant (s : List Nat) (N : Nat) (hN : N < 2 ^ 32) :
    ∀ n : Nat, n ≤ N →
      (List.range n).foldl (copyStep s)
          { is_quoted_value := false, j := 0, buffer := List.replicate N none,
            overrun := false }
        = { is_quoted_value := insideQuotes s n,
            j := ((List.range n).filterMap (fun i => expectedChar s i (s.getD i 0))).length,
            buffer :=
              ((List.range n).filterMap (fun i => expectedChar s i (s.getD i 0))).map some
                ++ List.replicate
                    (N - ((List.range n).filterMap
                            (fun i => expectedChar s i (s.getD i 0))).length) none,
            overrun := false } := by
  intro n
  induction n with
  | zero =>
    intro _
    simp [insideQuotes]
  | succ n ih =>
    intro hn
    have hlen := written_length_le s n
    rw [List.range_succ, List.foldl_append, ih (by omega), List.filterMap_append]
    generalize (List.range n).filterMap (fun i => expectedChar s i (s.getD i 0)) = out
      at hlen ⊢
    rw [insideQuotes_succ]
    simp only [List.foldl_cons, List.foldl_nil, List.filterMap_cons, List.filterMap_nil]
    by_cases hc : charAt s n = 34
    · rw [copyStep_quote s n _ hc, expectedChar_quote s n hc, if_pos hc]
      simp
    · obtain ⟨k, hk⟩ : ∃ k, N - out.length = k + 1 := ⟨N - out.length - 1, by omega⟩
      rw [hk, copyStep_write s n _ out k hc (by omega), expectedChar_write s n hc, if_neg hc]
      have hk' : N - (out ++ [if (charAt s n = 61 || charAt s n = 59) && !insideQuotes s n
                              then 0 else charAt s n]).length = k := by
        rw [List.length_append, List.length_singleton]
        omega
      rw [List.length_append, List.length_singleton] at hk'
      rw [List.length_append, List.length_singleton, hk']

theorem written_all (s : List Nat) :
    (List.range (s.length + 1)).filterMap (fun i => expectedChar s i (s.getD i 0))
      = expectedFilterBuffer s := by
  have h0 : s.getD s.length 0 = 0 := List.getD_eq_default _ _ (le_refl _)
  rw [List.range_succ, List.filterMap_append]
  simp only [List.filterMap_cons, List.filterMap_nil, h0]
  have he : expectedChar s s.length 0 = some 0 := by simp [expectedChar]
  rw [he]
  rfl

theorem written_length_add_quotes (s : List Nat) :
    ∀ n : Nat, n ≤ s.length →
      ((List.range n).filterMap (fun i => expectedChar s i (s.getD i 0))).length
        + (s.take n).count 34 = n := by
  intro n
  induction n with
  | zero => intro _; simp
  | succ n ih =>
    intro hn
    have h := ih (by omega)
    rw [List.range_succ, List.filterMap_append, count_take_succ, List.length_append]
    simp only [List.filterMap_cons, List.filterMap_nil]
    by_cases hc : charAt s n = 34
    · rw [expectedChar_quote s n hc, if_pos hc]
      simp only [List.length_nil]
      omega
    · rw [expectedChar_write s n hc, if_neg hc]
      simp only [List.length_singleton]
      omega

theorem filter_result (s : List Nat) (hlen : s.length + 1 < 2 ^ 32) :
    provider_invoke_callback_filter s
      = { buffer := (expectedFilterBuffer s).map some
            ++ List.replicate (s.length + 1 - (expectedFilterBuffer s).length) none,
          buffer_size :=
            if (expectedFilterBuffer s).length < s.length
            then (expectedFilterBuffer s).length + 1 else s.length + 1,
          j := (expectedFilterBuffer s).length,
          overrun := false } := by
  have h1 : s.length % 2 ^ 32 = s.length := Nat.mod_eq_of_lt (by omega)
  have h2 : (s.length + 1) % 2 ^ 32 = s.length + 1 := Nat.mod_eq_of_lt hlen
  have hinv := copy_loop_invariant s (s.length + 1) hlen (s.length + 1) (le_refl _)
  rw [written_all] at hinv
  have hj : (expectedFilterBuffer s).length ≤ s.length + 1 := by
    rw [← written_all]
    exact written_length_le s (s.length + 1)
  simp only [provider_invoke_callback_filter, strlen, h1, h2, hinv]
  by_cases hlt : (expectedFilterBuffer s).length < s.length
  · have h3 : ((expectedFilterBuffer s).length + 1) % 2 ^ 32
        = (expectedFilterBuffer s).length + 1 := Nat.mod_eq_of_lt (by omega)
    rw [if_pos hlt, if_pos hlt, h3]
  · rw [if_neg hlt, if_neg hlt]

/-- C15: for the NUL-terminated string with characters `s` (its length fitting the
`uint32_t` arithmetic of the function), the bytes `provider_invoke_callback` writes into
the buffer are exactly `s` with every double quote removed and every `'='` or `';'` outside
a quoted section replaced by NUL, followed by one terminating NUL; they occupy
`buffer [0 .. j)`, no write falls outside the `strlen + 1` bytes allocated, and the bytes
after them are never written. The comment's example `key="a;value=";foo=bar` becomes
`key\0a;value=\0foo\0bar\0`. -/
theorem provider_invoke_callback_filter_buffer (s : List Nat)
    (hlen : s.length + 1 < 2 ^ 32) :
    (provider_invoke_callback_filter s).buffer.take (provider_invoke_callback_filter s).j
        = (expectedFilterBuffer s).map some ∧
    (provider_invoke_callback_filter s).j = (expectedFilterBuffer s).length ∧
    (provider_invoke_callback_filter s).overrun = false ∧
    (provider_invoke_callback_filter s).buffer.length = strlen s + 1 ∧
    (provider_invoke_callback_filter s).buffer.drop (provider_invoke_callback_filter s).j
        = List.replicate (strlen s + 1 - (provider_invoke_callback_filter s).j) none ∧
    expectedFilterBuffer
        [107, 101, 121, 61, 34, 97, 59, 118, 97, 108, 117, 101, 61, 34, 59, 102, 111, 111,
         61, 98, 97, 114]
      = [107, 101, 121, 0, 97, 59, 118, 97, 108, 117, 101, 61, 0, 102, 111, 111, 0, 98, 97,
         114, 0] := by
  have hj : (expectedFilterBuffer s).length ≤ s.length + 1 := by
    rw [← written_all]
    exact written_length_le s (s.length + 1)
  rw [filter_result s hlen]
  refine ⟨?_, rfl, rfl, ?_, ?_, by decide⟩
  · exact List.take_left' (by simp)
  · simp only [List.length_append, List.length_map, List.length_replicate, strlen]
    omega
  · exact List.drop_left' (by simp)

/-- C15 on the comment's example `key="a;value=";foo=bar`. -/
theorem provider_invoke_callback_filter_buffer_witness :
    (provider_invoke_callback_filter
        [107, 101, 121, 61, 34, 97, 59, 118, 97, 108, 117, 101, 61, 34, 59, 102, 111, 111,
         61, 98, 97, 114]).buffer.take
      (provider_invoke_callback_filter
        [107, 101, 121, 61, 34, 97, 59, 118, 97, 108, 117, 101, 61, 34, 59, 102, 111, 111,
         61, 98, 97, 114]).j
      = (expectedFilterBuffer
          [107, 101, 121, 61, 34, 97, 59, 118, 97, 108, 117, 101, 61, 34, 59, 102, 111, 111,
           61, 98, 97, 114]).map some :=
  (provider_invoke_callback_filter_buffer
    [107, 101, 121, 61, 34, 97, 59, 118, 97, 108, 117, 101, 61, 34, 59, 102, 111, 111,
     61, 98, 97, 114] (by norm_num)).1

/-- C16, as the code behaves: for `k="v"` the loop writes the 4 bytes `k\0v\0`, but the
size handed to `ep_event_filter_desc_init` is 5: the fifth byte of the region was never
written. For `"k` (one unbalanced quote) 2 bytes are written and the size handed over
is 3. -/
theorem buffer_size_exceeds_written :
    (provider_invoke_callback_filter [107, 61, 34, 118, 34]).j = 4 ∧
    (provider_invoke_callback_filter [107, 61, 34, 118, 34]).buffer_size = 5 ∧
    (provider_invoke_callback_filter [107, 61, 34, 118, 34]).buffer.take 5
      = [some 107, some 0, some 118, some 0, none] ∧
    (provider_invoke_callback_filter [34, 107]).j = 2 ∧
    (provider_invoke_callback_filter [34, 107]).buffer_size = 3 := by
  decide

/-- The size handed to `ep_event_filter_desc_init` is the number of bytes written when the
string has no double quote, and one more than that whenever a quote was skipped. -/
theorem buffer_size_vs_written (s : List Nat) (hlen : s.length + 1 < 2 ^ 32) :
    (provider_invoke_callback_filter s).j = s.length - s.count 34 + 1 ∧
    (provider_invoke_callback_filter s).buffer_size
      = (provider_invoke_callback_filter s).j + (if s.count 34 = 0 then 0 else 1) := by
  have hw := written_length_add_quotes s s.length (le_refl _)
  rw [List.take_length] at hw
  have hall : (expectedFilterBuffer s).length
      = ((List.range s.length).filterMap
          (fun i => expectedChar s i (s.getD i 0))).length + 1 := by
    simp [expectedFilterBuffer]
  rw [filter_result s hlen]
  simp only
  constructor
  · omega
  · by_cases hq : s.count 34 = 0
    · have : ¬ (expectedFilterBuffer s).length < s.length := by omega
      rw [if_neg this, if_pos hq]
      omega
    · rw [if_neg hq]
      by_cases hlt : (expectedFilterBuffer s).length < s.length
      · rw [if_pos hlt]
      · rw [if_neg hlt]
        omega

/-! ## C17: the keyword filter of `ep_provider_add_event` -/

theorem session_mask_testBit (i : Nat) :
    Nat.testBit ((2 ^ 64 - 1) - 0xF00000000000) i
      = (decide (i < 64) && !(decide (44 ≤ i) && decide (i ≤ 47))) := by
  by_cases hi : i < 64
  · interval_cases i <;> decide
  · have h64 : (2 ^ 64 - 1) - 0xF00000000000 < 2 ^ i :=
      lt_of_lt_of_le (by norm_num) (Nat.pow_le_pow_right (by norm_num) (not_lt.mp hi))
    rw [Nat.testBit_eq_false_of_lt h64]
    simp [hi]

theorem masked_ne_all_keywords (keywords : Nat) :
    keywords &&& ((2 ^ 64 - 1) - 0xF00000000000) ≠ 2 ^ 64 - 1 := by
  intro h
  have h44 : Nat.testBit (keywords &&& ((2 ^ 64 - 1) - 0xF00000000000)) 44 = false := by
    rw [Nat.testBit_and, session_mask_testBit]
    simp
  rw [h] at h44
  revert h44
  decide

/-- C17: `ep_provider_add_event` passes `keywords & ~0xF00000000000` to `ep_event_alloc`
for every `keywords` other than all-ones, that is, bits 44 to 47 cleared and every other
bit of the 64 unchanged, and passes all-ones unchanged; filtering twice gives the same
result as filtering once. The other arguments are passed through. -/
theorem ep_provider_add_event_keyword_filter (keywords : Nat) :
    (keywords ≠ 2 ^ 64 - 1 →
      ep_provider_add_event_keywords keywords = keywords &&& 0xFFFF0FFFFFFFFFFF ∧
      ∀ i : Nat, i < 64 →
        Nat.testBit (ep_provider_add_event_keywords keywords) i
          = (Nat.testBit keywords i && !(decide (44 ≤ i) && decide (i ≤ 47)))) ∧
    ep_provider_add_event_keywords (2 ^ 64 - 1) = 2 ^ 64 - 1 ∧
    ep_provider_add_event_keywords (ep_provider_add_event_keywords keywords)
      = ep_provider_add_event_keywords keywords ∧
    (∀ (event_id event_version level metadata_len : Nat) (need_stack : Bool),
      ep_provider_add_event event_id keywords event_version level need_stack metadata_len
        = { keywords := ep_provider_add_event_keywords keywords, event_id := event_id,
            event_version := event_version, level := level, need_stack := need_stack,
            metadata_len := metadata_len }) := by
  refine ⟨?_, ?_, ?_, fun _ _ _ _ _ => rfl⟩
  · intro hne
    have hval : ep_provider_add_event_keywords keywords
        = keywords &&& ((2 ^ 64 - 1) - 0xF00000000000) := by
      simp only [ep_provider_add_event_keywords]
      rw [if_pos hne]
    refine ⟨hval, ?_⟩
    intro i hi
    rw [hval, Nat.testBit_and, session_mask_testBit]
    simp [hi]
  · simp [ep_provider_add_event_keywords]
  · by_cases hall : keywords = 2 ^ 64 - 1
    · have h1 : ep_provider_add_event_keywords keywords = keywords := by
        simp only [ep_provider_add_event_keywords]
        rw [if_neg (not_not.mpr hall)]
      rw [h1, h1]
    · have h1 : ep_provider_add_event_keywords keywords
          = keywords &&& ((2 ^ 64 - 1) - 0xF00000000000) := by
        simp only [ep_provider_add_event_keywords]
        rw [if_pos hall]
      have h2 : ep_provider_add_event_keywords
            (keywords &&& ((2 ^ 64 - 1) - 0xF00000000000))
          = (keywords &&& ((2 ^ 64 - 1) - 0xF00000000000))
              &&& ((2 ^ 64 - 1) - 0xF00000000000) := by
        simp only [ep_provider_add_event_keywords]
        rw [if_pos (masked_ne_all_keywords keywords)]
      rw [h1, h2, Nat.and_assoc, Nat.and_self]

/-- C17 on `keywords = 0xF00000000001`: the reserved bits are dropped, bit 0 stays. -/
theorem ep_provider_add_event_keyword_filter_witness :
    ep_provider_add_event_keywords 0xF00000000001 = 0xF00000000001 &&& 0xFFFF0FFFFFFFFFFF ∧
    ∀ i : Nat, i < 64 →
      Nat.testBit (ep_provider_add_event_keywords 0xF00000000001) i
        = (Nat.testBit 0xF00000000001 i && !(decide (44 ≤ i) && decide (i ≤ 47))) :=
  (ep_provider_add_event_keyword_filter 0xF00000000001).1 (by decide)

end EventPipeModel

namespace ArmModel

/-! ## C13: Thumb unconditional branch encode and decode -/

theorem toInt16_ofInt16 (x : Int) (hlo : -2 ^ 15 ≤ x) (hhi : x < 2 ^ 15) :
    toInt16 (ofInt16 x) = x := by
  unfold toInt16 ofInt16
  have hnn : 0 ≤ x % 2 ^ 16 := Int.emod_nonneg _ (by norm_num)
  have hlt : x % 2 ^ 16 < 2 ^ 16 := Int.emod_lt_of_pos _ (by norm_num)
  have hcast : (((x % 2 ^ 16).toNat : Nat) : Int) = x % 2 ^ 16 := Int.toNat_of_nonneg hnn
  have hmod : (x % 2 ^ 16).toNat % 2 ^ 16 = (x % 2 ^ 16).toNat := by
    apply Nat.mod_eq_of_lt
    omega
  rw [hmod]
  split
  · rename_i h
    rw [hcast]
    omega
  · rename_i h
    rw [hcast]
    omega

/-- Every even offset of the branch range, enumerated as `2 * (64 * c + k) - 2048`, is
decoded back to its own bits. -/
theorem roundtrip_chunks : ∀ c : Nat, c < 32 → ∀ k : Nat, k < 64 →
    decodeUnconditionalBranchThumb
        (emitUnconditionalBranchThumb (ofInt16 (2 * ((64 * c + k : Nat) : Int) - 2048)))
      = ofInt16 (2 * ((64 * c + k : Nat) : Int) - 2048) := by
  decide

/-- C13: for every even `offset` with `-2048 <= offset < 2048`,
`decodeUnconditionalBranchThumb` applied to the halfword written by
`emitUnconditionalBranchThumb (offset)` returns `offset`; the range assertion of the
decoder holds on the result, and that of the encoder on the argument. -/
theorem thumb_branch_roundtrip (offset : Int) (hlo : -2048 ≤ offset) (hhi : offset < 2048)
    (heven : offset % 2 = 0) :
    toInt16 (decodeUnconditionalBranchThumb (emitUnconditionalBranchThumb (ofInt16 offset)))
      = offset ∧
    branchOffsetInRange
      (decodeUnconditionalBranchThumb (emitUnconditionalBranchThumb (ofInt16 offset))) = true ∧
    branchOffsetInRange (ofInt16 offset) = true := by
  obtain ⟨n, hn⟩ : ∃ n : Nat, offset = 2 * (n : Int) - 2048 ∧ n < 2048 :=
    ⟨((offset + 2048) / 2).toNat, by omega, by omega⟩
  have hsplit : n = 64 * (n / 64) + n % 64 := (Nat.div_add_mod n 64).symm
  have hchunk := roundtrip_chunks (n / 64) (by omega) (n % 64) (Nat.mod_lt _ (by norm_num))
  rw [← hsplit, ← hn.1] at hchunk
  have hval : toInt16 (ofInt16 offset) = offset :=
    toInt16_ofInt16 offset (by omega) (by omega)
  rw [hchunk]
  refine ⟨hval, ?_, ?_⟩ <;>
  · simp only [branchOffsetInRange, hval, MAX_OFFSET_UNCONDITIONAL_BRANCH_THUMB,
      Bool.and_eq_true, decide_eq_true_eq]
    constructor <;> omega

/-- C13 at `offset = -6`: the halfword written is `0xE7FD` and decodes to `-6`. -/
theorem thumb_branch_roundtrip_witness :
    emitUnconditionalBranchThumb (ofInt16 (-6)) = 0xE7FD ∧
    toInt16 (decodeUnconditionalBranchThumb (emitUnconditionalBranchThumb (ofInt16 (-6))))
      = -6 :=
  ⟨by decide, (thumb_branch_roundtrip (-6) (by norm_num) (by norm_num) (by norm_num)).1⟩

/-! ## C14: Thumb instruction length -/

theorem mask_f800_testBit (i : Nat) :
    Nat.testBit 0xf800 i = (decide (11 ≤ i) && decide (i < 16)) := by
  by_cases hi : i < 16
  · interval_cases i <;> decide
  · have h : 0xf800 < 2 ^ i :=
      lt_of_lt_of_le (by norm_num) (Nat.pow_le_pow_right (by norm_num) (not_lt.mp hi))
    rw [Nat.testBit_lt_two_pow h]
    simp [hi]

theorem and_f800 (instr : Nat) (h : instr < 2 ^ 16) :
    instr &&& 0xf800 = 2 ^ 11 * (instr / 2 ^ 11) := by
  apply Nat.eq_of_testBit_eq
  intro i
  rw [Nat.testBit_and, mask_f800_testBit, Nat.testBit_mul_pow_two]
  by_cases h11 : 11 ≤ i
  · by_cases h16 : i < 16
    · simp only [h11, h16, decide_True, Bool.and_self, Bool.and_true, ge_iff_le, Bool.true_and]
      rw [← Nat.shiftRight_eq_div_pow, Nat.testBit_shiftRight]
      congr 1
      omega
    · have hx : instr < 2 ^ i :=
        lt_of_lt_of_le h (Nat.pow_le_pow_right (by norm_num) (not_lt.mp h16))
      have hd : instr / 2 ^ 11 < 2 ^ (i - 11) := by
        rw [Nat.div_lt_iff_lt_mul (by positivity), ← pow_add]
        rw [show i - 11 + 11 = i by omega]
        exact hx
      rw [Nat.testBit_lt_two_pow hx, Nat.testBit_lt_two_pow hd]
      simp
  · simp [h11]

/-- C14: for every 16-bit halfword `instr`, `GetARMInstructionLength (instr)` is 4 exactly
when bits [15:11] of `instr` are `0b11101`, `0b11110` or `0b11111`, and is 2 otherwise. -/
theorem GetARMInstructionLength_spec (instr : Nat) (h : instr < 2 ^ 16) :
    (GetARMInstructionLength instr = 4 ↔
      (instr >>> 11 = 0b11101 ∨ instr >>> 11 = 0b11110 ∨ instr >>> 11 = 0b11111)) ∧
    (GetARMInstructionLength instr = 2 ↔
      ¬ (instr >>> 11 = 0b11101 ∨ instr >>> 11 = 0b11110 ∨ instr >>> 11 = 0b11111)) := by
  have hand := and_f800 instr h
  have hshift : instr >>> 11 = instr / 2 ^ 11 := Nat.shiftRight_eq_div_pow instr 11
  have hk : instr / 2 ^ 11 < 32 := by
    rw [Nat.div_lt_iff_lt_mul (by positivity)]
    calc instr < 2 ^ 16 := h
      _ = 32 * 2 ^ 11 := by norm_num
  unfold GetARMInstructionLength
  rw [hand, hshift]
  generalize instr / 2 ^ 11 = k at hk
  by_cases hgt : 2 ^ 11 * k > 0xe000
  · rw [if_pos hgt]
    constructor
    · constructor
      · intro _; omega
      · intro _; rfl
    · constructor
      · intro h2; cases h2
      · intro hn; omega
  · rw [if_neg hgt]
    constructor
    · constructor
      · intro h4; cases h4
      · intro hk3; omega
    · constructor
      · intro _; omega
      · intro _; rfl

/-- C14 at `instr = 0xF000` (bits [15:11] are `0b11110`): a 32-bit instruction. -/
theorem GetARMInstructionLength_spec_witness : GetARMInstructionLength 0xF000 = 4 :=
  ((GetARMInstructionLength_spec 0xF000 (by norm_num)).1).2 (Or.inr (Or.inl (by decide)))

end ArmModel

namespace RiscV64Model

/-! ## C12: `EmitMovConstant` -/

/-- C12, as the code behaves: for `imm = 0x7FFFF800` and `reg = t0` the words emitted are
`lui t0, 0x80000` and `addi t0, t0, -2048`. Under RV64 `lui` leaves `0xFFFFFFFF80000000`
and the 64-bit `addi` leaves `0xFFFFFFFF7FFFF800`, not `imm`. The same happens for
`0x7FFFFFFF`, `0xFFFFFFFF` and `0x3FFFFFF000`; `0x12345678` and `-4096` are loaded
correctly. -/
theorem EmitMovConstant_upper_bits_set :
    EmitMovConstant 5 0x7FFFF800 = [0x800002b7, 0x80028293] ∧
    execWords (fun _ => 0) (EmitMovConstant 5 0x7FFFF800) 5 = 0xFFFFFFFF7FFFF800 ∧
    execWords (fun _ => 0) (EmitMovConstant 5 0x7FFFF800) 5 ≠ 0x7FFFF800 ∧
    execWords (fun _ => 0) (EmitMovConstant 5 0x7FFFFFFF) 5 ≠ 0x7FFFFFFF ∧
    execWords (fun _ => 0) (EmitMovConstant 5 0xFFFFFFFF) 5 ≠ 0xFFFFFFFF ∧
    execWords (fun _ => 0) (EmitMovConstant 5 0x3FFFFFF000) 5 ≠ 0x3FFFFFF000 ∧
    execWords (fun _ => 0) (EmitMovConstant 5 0x12345678) 5 = 0x12345678 ∧
    execWords (fun _ => 0) (EmitMovConstant 5 (2 ^ 64 - 4096)) 5 = 2 ^ 64 - 4096 := by
  refine ⟨by decide, by decide, by decide, by decide, by decide, by decide, by decide,
    by decide⟩

/-! ## C18: `BranchInstructionFormat::EmitInstruction` -/

/-- C18, as the code behaves: `dataOffset = 0x7FFFF800` passes the range check; the
`auipc` word carries the upper immediate `0x80000`, which RV64 sign-extends to `-2^31`,
and the `ld` word carries `0x800`, that is `-2048`; they recombine to
`dataOffset - 2^32`. The same holds up to the accepted maximum `0x7FFFFFFF`; at
`0x7FFFF7FF` and at `-24` the two immediates recombine to `dataOffset`. The low 12 bits of
the `auipc` word and the low 20 bits of the `ld` word are the fixed opcode and register
fields. -/
theorem EmitInstruction_top_offsets_wrap :
    EmitInstruction 0 0 0 0x7FFFF800
      = .ok { words := [0x80000317, 0x80033303, 0x00030067], data := 0 } ∧
    auipcOffset 0x80000317 = -(2 ^ 31) ∧
    ldOffset 0x80033303 = -2048 ∧
    auipcOffset 0x80000317 + ldOffset 0x80033303 = 0x7FFFF800 - 2 ^ 32 ∧
    auipcOffset 0x80000317 + ldOffset 0x80033303 ≠ 0x7FFFF800 ∧
    0x80000317 % 2 ^ 12 = 0x317 ∧ 0x80033303 % 2 ^ 20 = 0x33303 ∧
    EmitInstruction 0 0 0 0x7FFFFFFF
      = .ok { words := [0x80000317, 0xFFF33303, 0x00030067], data := 0 } ∧
    auipcOffset 0x80000317 + ldOffset 0xFFF33303 = 0x7FFFFFFF - 2 ^ 32 ∧
    EmitInstruction 0 0 0 0x7FFFF7FF
      = .ok { words := [0x7FFFF317, 0x7FF33303, 0x00030067], data := 0 } ∧
    auipcOffset 0x7FFFF317 + ldOffset 0x7FF33303 = 0x7FFFF7FF ∧
    EmitInstruction 0 0 0 (-24)
      = .ok { words := [0x00000317, 0xFE833303, 0x00030067], data := 0 } ∧
    auipcOffset 0x00000317 + ldOffset 0xFE833303 = -24 := by
  refine ⟨rfl, by decide, by decide, by decide, by decide, by decide, by decide, rfl,
    by decide, rfl, by decide, rfl, by decide⟩

end RiscV64Model

namespace RiscV64Model

open JitInterface

/-! ## C19: code size and data layout of `CreateDictionaryLookupHelper` -/

theorem emitStep_sizes (NSC slotOffset : Nat) (lk : CORINFO_RUNTIME_LOOKUP) (st : EmitState)
    (acc : Nat × Nat) (i K D : Nat) (hc : 4 * st.cells.length = acc.1 + K)
    (hl : 4 * st.loads.length = acc.2) (hd : st.dataOffset = D + acc.2) :
    4 * (emitStep NSC slotOffset lk st i).cells.length = (codeSizeStep NSC lk acc i).1 + K ∧
    4 * (emitStep NSC slotOffset lk st i).loads.length = (codeSizeStep NSC lk acc i).2 ∧
    (emitStep NSC slotOffset lk st i).dataOffset = D + (codeSizeStep NSC lk acc i).2 := by
  unfold emitStep codeSizeStep emitSizeCheck
  split_ifs <;> simp only [List.length_append, List.length_cons, List.length_nil] <;>
    refine ⟨?_, ?_, ?_⟩ <;> omega

theorem emitLoop_sizes (NSC slotOffset : Nat) (lk : CORINFO_RUNTIME_LOOKUP) (st : EmitState)
    (acc : Nat × Nat) (K D : Nat) (hc : 4 * st.cells.length = acc.1 + K)
    (hl : 4 * st.loads.length = acc.2) (hd : st.dataOffset = D + acc.2) :
    ∀ n : Nat,
      4 * ((List.range n).foldl (emitStep NSC slotOffset lk) st).cells.length
        = ((List.range n).foldl (codeSizeStep NSC lk) acc).1 + K ∧
      4 * ((List.range n).foldl (emitStep NSC slotOffset lk) st).loads.length
        = ((List.range n).foldl (codeSizeStep NSC lk) acc).2 ∧
      ((List.range n).foldl (emitStep NSC slotOffset lk) st).dataOffset
        = D + ((List.range n).foldl (codeSizeStep NSC lk) acc).2 := by
  intro n
  induction n with
  | zero => exact ⟨hc, hl, hd⟩
  | succ n ih =>
    rw [List.range_succ, List.foldl_append, List.foldl_append]
    exact emitStep_sizes NSC slotOffset lk _ _ n K D ih.1 ih.2.1 ih.2.2

theorem emitStep_loads (NSC slotOffset : Nat) (lk : CORINFO_RUNTIME_LOOKUP) (st : EmitState)
    (cells : List Cell) (i : Nat) :
    ∃ extra : List Load,
      (emitStep NSC slotOffset lk st i).loads = st.loads ++ extra ∧
      dataStep NSC lk cells i = cells ++ extra.map (fun l => Cell.data (l.value % 2 ^ 32)) ∧
      (∀ (k : Nat) (l : Load), extra[k]? = some l →
        l.imm = st.dataOffset + 4 * k ∨ l.imm = (st.dataOffset + 4 * k) &&& 0xfff) ∧
      (emitStep NSC slotOffset lk st i).dataOffset = st.dataOffset + 4 * extra.length := by
  by_cases hlast : i + 1 = lk.indirections ∧ lk.sizeOffset ≠ NSC
  · by_cases hbig : lk.sizeOffset > 2047
    · have hdata : i + 1 = lk.indirections ∧ lk.sizeOffset ≠ NSC ∧ lk.sizeOffset > 2047 :=
        ⟨hlast.1, hlast.2, hbig⟩
      by_cases hoff : lk.offsets i > 2047
      · refine ⟨[{ imm := st.dataOffset, value := lk.sizeOffset },
                 { imm := (st.dataOffset + 4) &&& 0xfff, value := lk.offsets i }], ?_, ?_, ?_, ?_⟩
        · simp [emitStep, emitSizeCheck, hlast, hbig, hoff]
        · simp [dataStep, hdata, hoff]
        · intro k l hk
          match k, hk with
          | 0, hk =>
            simp only [List.getElem?_cons_zero, Option.some.injEq] at hk
            subst hk
            exact Or.inl rfl
          | 1, hk =>
            simp only [List.getElem?_cons_succ, List.getElem?_cons_zero,
              Option.some.injEq] at hk
            subst hk
            exact Or.inr rfl
          | k + 2, hk => simp at hk
        · simp [emitStep, emitSizeCheck, hlast, hbig, hoff]
      · refine ⟨[{ imm := st.dataOffset, value := lk.sizeOffset }], ?_, ?_, ?_, ?_⟩
        · simp [emitStep, emitSizeCheck, hlast, hbig, hoff]
        · simp [dataStep, hdata, hoff]
        · intro k l hk
          match k, hk with
          | 0, hk =>
            simp only [List.getElem?_cons_zero, Option.some.injEq] at hk
            subst hk
            exact Or.inl rfl
          | k + 1, hk => simp at hk
        · simp [emitStep, emitSizeCheck, hlast, hbig, hoff]
    · have hdata : ¬ (i + 1 = lk.indirections ∧ lk.sizeOffset ≠ NSC ∧ lk.sizeOffset > 2047) :=
        fun h => hbig h.2.2
      by_cases hoff : lk.offsets i > 2047
      · refine ⟨[{ imm := st.dataOffset &&& 0xfff, value := lk.offsets i }], ?_, ?_, ?_, ?_⟩
        · simp [emitStep, emitSizeCheck, hlast, hbig, hoff]
        · simp [dataStep, hdata, hoff]
        · intro k l hk
          match k, hk with
          | 0, hk =>
            simp only [List.getElem?_cons_zero, Option.some.injEq] at hk
            subst hk
            exact Or.inr rfl
          | k + 1, hk => simp at hk
        · simp [emitStep, emitSizeCheck, hlast, hbig, hoff]
      · refine ⟨[], ?_, ?_, ?_, ?_⟩
        · simp [emitStep, emitSizeCheck, hlast, hbig, hoff]
        · simp [dataStep, hdata, hoff]
        · intro k l hk
          simp at hk
        · simp [emitStep, emitSizeCheck, hlast, hbig, hoff]
  · have hdata : ¬ (i + 1 = lk.indirections ∧ lk.sizeOffset ≠ NSC ∧ lk.sizeOffset > 2047) :=
      fun h => hlast ⟨h.1, h.2.1⟩
    by_cases hoff : lk.offsets i > 2047
    · refine ⟨[{ imm := st.dataOffset &&& 0xfff, value := lk.offsets i }], ?_, ?_, ?_, ?_⟩
      · simp [emitStep, hlast, hoff]
      · simp [dataStep, hdata, hoff]
      · intro k l hk
        match k, hk with
        | 0, hk =>
          simp only [List.getElem?_cons_zero, Option.some.injEq] at hk
          subst hk
          exact Or.inr rfl
        | k + 1, hk => simp at hk
      · simp [emitStep, hlast, hoff]
    · refine ⟨[], ?_, ?_, ?_, ?_⟩
      · simp [emitStep, hlast, hoff]
      · simp [dataStep, hdata, hoff]
      · intro k l hk
        simp at hk
      · simp [emitStep, hlast, hoff]

theorem emitLoop_loads (NSC slotOffset : Nat) (lk : CORINFO_RUNTIME_LOOKUP) (st : EmitState)
    (cells : List Cell) :
    ∀ n : Nat, ∃ extra : List Load,
      ((List.range n).foldl (emitStep NSC slotOffset lk) st).loads = st.loads ++ extra ∧
      (List.range n).foldl (dataStep NSC lk) cells
        = cells ++ extra.map (fun l => Cell.data (l.value % 2 ^ 32)) ∧
      (∀ (k : Nat) (l : Load), extra[k]? = some l →
        l.imm = st.dataOffset + 4 * k ∨ l.imm = (st.dataOffset + 4 * k) &&& 0xfff) ∧
      ((List.range n).foldl (emitStep NSC slotOffset lk) st).dataOffset
        = st.dataOffset + 4 * extra.length := by
  intro n
  induction n with
  | zero => exact ⟨[], by simp, by simp, by simp, by simp⟩
  | succ n ih =>
    obtain ⟨extra, h1, h2, h3, h4⟩ := ih
    obtain ⟨more, g1, g2, g3, g4⟩ :=
      emitStep_loads NSC slotOffset lk ((List.range n).foldl (emitStep NSC slotOffset lk) st)
        ((List.range n).foldl (dataStep NSC lk) cells) n
    refine ⟨extra ++ more, ?_, ?_, ?_, ?_⟩
    · rw [List.range_succ, List.foldl_append]
      simp only [List.foldl_cons, List.foldl_nil]
      rw [g1, h1, List.append_assoc]
    · rw [List.range_succ, List.foldl_append]
      simp only [List.foldl_cons, List.foldl_nil]
      rw [g2, h2, List.map_append, List.append_assoc]
    · intro k l hk
      by_cases hlt : k < extra.length
      · rw [List.getElem?_append_left hlt] at hk
        exact h3 k l hk
      · rw [List.getElem?_append_right (not_lt.mp hlt)] at hk
        have := g3 (k - extra.length) l hk
        rw [h4] at this
        have hidx : st.dataOffset + 4 * extra.length + 4 * (k - extra.length)
            = st.dataOffset + 4 * k := by omega
        rw [hidx] at this
        exact this
    · rw [List.range_succ, List.foldl_append]
      simp only [List.foldl_cons, List.foldl_nil]
      rw [g4, h4, List.length_append]
      omega

theorem emitTail_length (lk : CORINFO_RUNTIME_LOOKUP) (st : EmitState)
    (pArgs helperAddress : Nat) :
    4 * (emitTail lk st pArgs helperAddress).length
      = if lk.testForNull then ALIGN_UP (4 * st.cells.length + 12) 8 + 32
        else 4 * st.cells.length + 4 := by
  have hmod : ∀ x : Nat, x &&& 0x7 = x % 8 := fun x => Nat.and_pow_two_sub_one_eq_mod x 3
  unfold emitTail
  cases htest : lk.testForNull with
  | false =>
    simp only [Bool.not_false, if_true, Bool.false_eq_true, if_false, List.length_append,
      List.length_cons, List.length_nil]
    omega
  | true =>
    simp only [Bool.not_true, Bool.false_eq_true, if_false, if_true]
    rw [hmod]
    cases st.pBLECall with
    | none =>
      simp only
      split_ifs with hpad <;>
        simp only [List.length_append, List.length_cons, List.length_nil,
          EmitHelperWithArg] at hpad ⊢ <;>
        unfold ALIGN_UP <;> omega
    | some pBLECall =>
      simp only
      split_ifs with hpad <;>
        simp only [List.length_append, List.length_set, List.length_cons, List.length_nil,
          EmitHelperWithArg] at hpad ⊢ <;>
        unfold ALIGN_UP <;> omega

/-- C19: for every lookup descriptor, the bytes `CreateDictionaryLookupHelper` has written
when it reaches `END_DYNAMIC_HELPER_EMIT` number exactly the precomputed `codeSize`
(`pStart + cb == p`). The indirection-data words start at byte offset `dataOffset`, the
`k`-th of them, at `dataOffset + 4 * k`, is the quantity consumed after the `k`-th
`lw t4, imm(t4)`, and that `lw` is given `dataOffset + 4 * k` as its immediate (masked with
`0xfff` for an offset load); when the function's assertion `codeSize < 2047` holds the
immediate is `dataOffset + 4 * k` itself. -/
theorem CreateDictionaryLookupHelper_layout (CORINFO_NO_SIZE_CHECK : Nat)
    (lk : CORINFO_RUNTIME_LOOKUP) (dictionaryIndexAndSlot pArgs helperAddress : Nat) :
    4 * (CreateDictionaryLookupHelper CORINFO_NO_SIZE_CHECK lk dictionaryIndexAndSlot pArgs
          helperAddress).cells.length
      = (CreateDictionaryLookupHelper CORINFO_NO_SIZE_CHECK lk dictionaryIndexAndSlot pArgs
          helperAddress).codeSize ∧
    (CreateDictionaryLookupHelper CORINFO_NO_SIZE_CHECK lk dictionaryIndexAndSlot pArgs
          helperAddress).dataOffset
        + 4 * (CreateDictionaryLookupHelper CORINFO_NO_SIZE_CHECK lk dictionaryIndexAndSlot
                pArgs helperAddress).loads.length
      = (CreateDictionaryLookupHelper CORINFO_NO_SIZE_CHECK lk dictionaryIndexAndSlot pArgs
          helperAddress).codeSize ∧
    (CreateDictionaryLookupHelper CORINFO_NO_SIZE_CHECK lk dictionaryIndexAndSlot pArgs
          helperAddress).dataOffset % 4 = 0 ∧
    (∀ (k : Nat) (l : Load),
      (CreateDictionaryLookupHelper CORINFO_NO_SIZE_CHECK lk dictionaryIndexAndSlot pArgs
          helperAddress).loads[k]? = some l →
      (CreateDictionaryLookupHelper CORINFO_NO_SIZE_CHECK lk dictionaryIndexAndSlot pArgs
          helperAddress).cells[
            (CreateDictionaryLookupHelper CORINFO_NO_SIZE_CHECK lk dictionaryIndexAndSlot pArgs
              helperAddress).dataOffset / 4 + k]?
        = some (Cell.data (l.value % 2 ^ 32)) ∧
      (l.imm = (CreateDictionaryLookupHelper CORINFO_NO_SIZE_CHECK lk dictionaryIndexAndSlot
                  pArgs helperAddress).dataOffset + 4 * k ∨
       l.imm = ((CreateDictionaryLookupHelper CORINFO_NO_SIZE_CHECK lk dictionaryIndexAndSlot
                  pArgs helperAddress).dataOffset + 4 * k) &&& 0xfff)) ∧
    ((CreateDictionaryLookupHelper CORINFO_NO_SIZE_CHECK lk dictionaryIndexAndSlot pArgs
          helperAddress).codeSize < 2047 →
      ∀ (k : Nat) (l : Load),
        (CreateDictionaryLookupHelper CORINFO_NO_SIZE_CHECK lk dictionaryIndexAndSlot pArgs
            helperAddress).loads[k]? = some l →
        l.imm = (CreateDictionaryLookupHelper CORINFO_NO_SIZE_CHECK lk dictionaryIndexAndSlot
                  pArgs helperAddress).dataOffset + 4 * k) := by
  -- names for the parts of the function
  generalize hslot : ((dictionaryIndexAndSlot &&& 0xFFFF) % 2 ^ 16 * 8) % 2 ^ 16 = slotOffset
  generalize hc0 : (if (lk.testForNull || (lk.sizeOffset != CORINFO_NO_SIZE_CHECK)) = true
      then 4 else 0) = codeSize0
  generalize hS : (List.range lk.indirections).foldl (codeSizeStep CORINFO_NO_SIZE_CHECK lk)
      (codeSize0, 0) = S
  generalize hD : (if lk.testForNull = true
      then ALIGN_UP (S.1 + (if S.2 ≠ 0 then 4 else 0) + 12) 8 + 32
      else S.1 + (if S.2 ≠ 0 then 4 else 0) + 4) = D
  generalize hcells1 :
    (if (lk.testForNull || (lk.sizeOffset != CORINFO_NO_SIZE_CHECK)) = true
      then (if S.2 ≠ 0 then [Cell.instr (UTypeInstr 0x17 29 0)] else [])
              ++ [Cell.instr (ITypeInstr 0x13 0 7 10 0)]
      else (if S.2 ≠ 0 then [Cell.instr (UTypeInstr 0x17 29 0)] else [])) = cells1
  generalize hE : (List.range lk.indirections).foldl
      (emitStep CORINFO_NO_SIZE_CHECK slotOffset lk)
      { cells := cells1, dataOffset := D, pBLECall := none, loads := [] } = E
  have hr : CreateDictionaryLookupHelper CORINFO_NO_SIZE_CHECK lk dictionaryIndexAndSlot pArgs
      helperAddress
      = { codeSize := D + S.2, dataOffset := D,
          cells := (List.range lk.indirections).foldl (dataStep CORINFO_NO_SIZE_CHECK lk)
            (emitTail lk E pArgs helperAddress),
          loads := E.loads } := by
    simp only [CreateDictionaryLookupHelper, hslot, hc0, hS, hD, hcells1, hE]
  rw [hr]
  simp only
  -- the sizes of the second loop follow the first loop
  have hlen1 : 4 * cells1.length = codeSize0 + (if S.2 ≠ 0 then 4 else 0) := by
    rw [← hcells1, ← hc0]
    split_ifs <;> simp
  have hsz := emitLoop_sizes CORINFO_NO_SIZE_CHECK slotOffset lk
    { cells := cells1, dataOffset := D, pBLECall := none, loads := [] } (codeSize0, 0)
    (if S.2 ≠ 0 then 4 else 0) D hlen1 (by simp) (by simp) lk.indirections
  rw [hE, hS] at hsz
  obtain ⟨hsz1, hsz2, -⟩ := hsz
  -- the data loop writes the loaded quantities in emission order
  obtain ⟨extra, hl1, hl2, hl3, -⟩ := emitLoop_loads CORINFO_NO_SIZE_CHECK slotOffset lk
    { cells := cells1, dataOffset := D, pBLECall := none, loads := [] }
    (emitTail lk E pArgs helperAddress) lk.indirections
  rw [hE] at hl1
  simp only [List.nil_append] at hl1
  rw [hl2, ← hl1]
  simp only at hl3
  rw [← hl1] at hl3
  have htail := emitTail_length lk E pArgs helperAddress
  have hcode : 4 * (emitTail lk E pArgs helperAddress).length = D := by
    rw [htail, ← hD, hsz1]
  have hD4 : D % 4 = 0 := by omega
  have hidx : D / 4 = (emitTail lk E pArgs helperAddress).length := by omega
  refine ⟨?_, ?_, hD4, ?_, ?_⟩
  · rw [List.length_append, List.length_map]
    omega
  · omega
  · intro k l hk
    refine ⟨?_, hl3 k l hk⟩
    rw [hidx, List.getElem?_append_right (by omega)]
    simp [hk]
  · intro hsmall k l hk
    have hklt : k < E.loads.length := by
      by_contra hge
      rw [List.getElem?_eq_none (not_lt.mp hge)] at hk
      cases hk
    rcases hl3 k l hk with h | h
    · exact h
    · rw [h]
      exact Nat.and_pow_two_sub_one_of_lt_two_pow (n := 12) (by norm_num; omega)

/-- C19 on the example descriptor (`codeSize` 116, `dataOffset` 104): the second
indirection-data load, of the size offset 4000, is given the immediate `104 + 4 * 1`. -/
theorem CreateDictionaryLookupHelper_layout_witness :
    (108 : Nat)
      = (CreateDictionaryLookupHelper 0xFFFF exampleLookup 0x10005 0x1000 0x2000).dataOffset
          + 4 * 1 :=
  (CreateDictionaryLookupHelper_layout 0xFFFF exampleLookup 0x10005 0x1000 0x2000).2.2.2.2
    (by decide) 1 { imm := 108, value := 4000 } (by decide)

end RiscV64Model

namespace X86Model

open JitInterface

/-! ## C20: code size and `jle` target of the x86 `CreateDictionaryLookupHelper` -/

theorem le16_length (v : Nat) : (le16 v).length = 2 := rfl

theorem le32_length (v : Nat) : (le32 v).length = 4 := rfl

theorem getElem?_after_cmp {α : Type} (pre a b c tail : List α) (x : α)
    (ha : a.length = 2) (hb : b.length = 4) (hc : c.length = 4) :
    (pre ++ (a ++ (b ++ (c ++ (x :: tail)))))[pre.length + 10]? = some x := by
  rw [List.getElem?_append_right (by omega),
    List.getElem?_append_right (by omega),
    List.getElem?_append_right (by omega),
    List.getElem?_append_right (by omega)]
  have hz : pre.length + 10 - pre.length - a.length - b.length - c.length = 0 := by omega
  rw [hz]
  exact List.getElem?_cons_zero

theorem emitStep_plain (NSC slotOffset : Nat) (lk : CORINFO_RUNTIME_LOOKUP) (st : EmitState)
    (i : Nat) (hnot : ¬ (i + 1 = lk.indirections ∧ lk.sizeOffset ≠ NSC)) :
    (emitStep NSC slotOffset lk st i).pJLECall = st.pJLECall ∧
    (emitStep NSC slotOffset lk st i).bytes.length
      = indirectionsSizeStep lk st.bytes.length i := by
  unfold emitStep indirectionsSizeStep
  simp only [if_neg hnot]
  by_cases hoff : lk.offsets i ≥ 0x80
  · simp only [if_pos hoff, List.length_append, le16_length, le32_length, and_self]
  · simp only [if_neg hoff, List.length_append, le16_length, List.length_cons,
      List.length_nil, and_self]

theorem emitStep_sizeCheck (NSC slotOffset : Nat) (lk : CORINFO_RUNTIME_LOOKUP)
    (st : EmitState) (i : Nat) (hlast : i + 1 = lk.indirections ∧ lk.sizeOffset ≠ NSC) :
    (emitStep NSC slotOffset lk st i).pJLECall = some (st.bytes.length + 11) ∧
    (emitStep NSC slotOffset lk st i).bytes.length
      = indirectionsSizeStep lk st.bytes.length i + 12 ∧
    (emitStep NSC slotOffset lk st i).bytes[st.bytes.length + 10]? = some (some 0x7e) := by
  unfold emitStep indirectionsSizeStep
  simp only [if_pos hlast]
  by_cases hoff : lk.offsets i ≥ 0x80
  · simp only [if_pos hoff]
    refine ⟨trivial, ?_, ?_⟩
    · simp only [List.length_append, le16_length, le32_length, List.length_cons,
        List.length_nil]
    · simp only [List.append_assoc, List.singleton_append]
      exact getElem?_after_cmp _ _ _ _ _ _ (le16_length _) (le32_length _) (le32_length _)
  · simp only [if_neg hoff]
    refine ⟨trivial, ?_, ?_⟩
    · simp only [List.length_append, le16_length, le32_length, List.length_cons,
        List.length_nil]
    · simp only [List.append_assoc, List.singleton_append]
      exact getElem?_after_cmp _ _ _ _ _ _ (le16_length _) (le32_length _) (le32_length _)

theorem emitLoop_plain (NSC slotOffset : Nat) (lk : CORINFO_RUNTIME_LOOKUP) :
    ∀ n : Nat, (∀ i : Nat, i < n → ¬ (i + 1 = lk.indirections ∧ lk.sizeOffset ≠ NSC)) →
      ((List.range n).foldl (emitStep NSC slotOffset lk)
          { bytes := [], pJLECall := none }).pJLECall = none ∧
      ((List.range n).foldl (emitStep NSC slotOffset lk)
          { bytes := [], pJLECall := none }).bytes.length
        = (List.range n).foldl (indirectionsSizeStep lk) 0 := by
  intro n
  induction n with
  | zero => intro _; exact ⟨rfl, rfl⟩
  | succ n ih =>
    intro hall
    obtain ⟨h1, h2⟩ := ih (fun i hi => hall i (by omega))
    rw [List.range_succ, List.foldl_append, List.foldl_append]
    simp only [List.foldl_cons, List.foldl_nil]
    obtain ⟨g1, g2⟩ := emitStep_plain NSC slotOffset lk
      ((List.range n).foldl (emitStep NSC slotOffset lk) { bytes := [], pJLECall := none })
      n (hall n (by omega))
    exact ⟨by rw [g1, h1], by rw [g2, h2]⟩

theorem indirectionsSize_eq_sum (lk : CORINFO_RUNTIME_LOOKUP) :
    ∀ n : Nat, (List.range n).foldl (indirectionsSizeStep lk) 0
      = ((List.range n).map (fun i => if lk.offsets i ≥ 0x80 then 6 else 3)).sum := by
  intro n
  induction n with
  | zero => rfl
  | succ n ih =>
    rw [List.range_succ, List.foldl_append, List.map_append, List.sum_append, ← ih]
    simp [indirectionsSizeStep]

/-- The result of the function in terms of the state `st` left by the second loop. -/
theorem lookupHelper_eq (NSC JMP : Nat) (lk : CORINFO_RUNTIME_LOOKUP)
    (dictionaryIndexAndSlot pArgs rel32 : Nat) :
    ∃ slotOffset : Nat,
      CreateDictionaryLookupHelper NSC JMP lk dictionaryIndexAndSlot pArgs rel32
        = (if !lk.testForNull then
            { codeSize := (List.range lk.indirections).foldl (indirectionsSizeStep lk) 0
                + (if lk.testForNull then 15 else 1) + (if lk.sizeOffset ≠ NSC then 12 else 0),
              bytes := ((List.range lk.indirections).foldl (emitStep NSC slotOffset lk)
                          { bytes := [], pJLECall := none }).bytes ++ [some 0xC3],
              pJLECall := ((List.range lk.indirections).foldl (emitStep NSC slotOffset lk)
                          { bytes := [], pJLECall := none }).pJLECall }
          else
            { codeSize := (List.range lk.indirections).foldl (indirectionsSizeStep lk) 0
                + (if lk.testForNull then 15 else 1) + (if lk.sizeOffset ≠ NSC then 12 else 0),
              bytes :=
                (match ((List.range lk.indirections).foldl (emitStep NSC slotOffset lk)
                          { bytes := [], pJLECall := none }).pJLECall with
                  | some pJLECall =>
                    (((List.range lk.indirections).foldl (emitStep NSC slotOffset lk)
                        { bytes := [], pJLECall := none }).bytes
                      ++ le16 0xc085 ++ le16 0x0174 ++ [some 0xC3]).set pJLECall
                      (some (((((List.range lk.indirections).foldl
                          (emitStep NSC slotOffset lk)
                          { bytes := [], pJLECall := none }).bytes
                        ++ le16 0xc085 ++ le16 0x0174 ++ [some 0xC3]).length
                          - pJLECall - 1) % 256))
                  | none =>
                    ((List.range lk.indirections).foldl (emitStep NSC slotOffset lk)
                        { bytes := [], pJLECall := none }).bytes
                      ++ le16 0xc085 ++ le16 0x0174 ++ [some 0xC3])
                  ++ EmitHelperWithArg JMP pArgs rel32,
              pJLECall := ((List.range lk.indirections).foldl (emitStep NSC slotOffset lk)
                          { bytes := [], pJLECall := none }).pJLECall }) :=
  ⟨_, rfl⟩

theorem helper_length (JMP pArgs rel32 : Nat) :
    (EmitHelperWithArg JMP pArgs rel32).length = 10 := rfl

/-- C20: for every lookup descriptor in which a size check comes with `testForNull` and at
least one indirection (the function's assertions demand two), the bytes
`CreateDictionaryLookupHelper` has written when it reaches `END_DYNAMIC_HELPER_EMIT` number
exactly `codeSize`, the sum over the indirections of 6 (offset `>= 0x80`) or 3, plus 15
with `testForNull` and 1 without, plus 12 with a size check (`pStart + cb == p`). With a
size check, the displacement byte patched at `pJLECall` follows the `jle` opcode `0x7e`
and makes the `jle` land on the first byte of the helper-call sequence, the last ten bytes
written. -/
theorem CreateDictionaryLookupHelper_size_and_jle (NSC JMP : Nat)
    (lk : CORINFO_RUNTIME_LOOKUP) (dictionaryIndexAndSlot pArgs rel32 : Nat)
    (hsize : lk.sizeOffset ≠ NSC → lk.testForNull = true ∧ 1 ≤ lk.indirections) :
    (CreateDictionaryLookupHelper NSC JMP lk dictionaryIndexAndSlot pArgs rel32).bytes.length
      = (CreateDictionaryLookupHelper NSC JMP lk dictionaryIndexAndSlot pArgs rel32).codeSize ∧
    (CreateDictionaryLookupHelper NSC JMP lk dictionaryIndexAndSlot pArgs rel32).codeSize
      = ((List.range lk.indirections).map
            (fun i => if lk.offsets i ≥ 0x80 then 6 else 3)).sum
          + (if lk.testForNull then 15 else 1) + (if lk.sizeOffset ≠ NSC then 12 else 0) ∧
    (lk.sizeOffset ≠ NSC →
      ∃ q d : Nat,
        (CreateDictionaryLookupHelper NSC JMP lk dictionaryIndexAndSlot pArgs rel32).pJLECall
          = some q ∧
        1 ≤ q ∧
        (CreateDictionaryLookupHelper NSC JMP lk dictionaryIndexAndSlot pArgs rel32).bytes[q - 1]?
          = some (some 0x7e) ∧
        (CreateDictionaryLookupHelper NSC JMP lk dictionaryIndexAndSlot pArgs rel32).bytes[q]?
          = some (some d) ∧
        jleTarget q d
          = (((CreateDictionaryLookupHelper NSC JMP lk dictionaryIndexAndSlot pArgs
                rel32).codeSize - 10 : Nat) : Int) ∧
        (CreateDictionaryLookupHelper NSC JMP lk dictionaryIndexAndSlot pArgs rel32).bytes.drop
            ((CreateDictionaryLookupHelper NSC JMP lk dictionaryIndexAndSlot pArgs
                rel32).codeSize - 10)
          = EmitHelperWithArg JMP pArgs rel32) := by
  obtain ⟨slotOffset, hr⟩ := lookupHelper_eq NSC JMP lk dictionaryIndexAndSlot pArgs rel32
  rw [hr, ← indirectionsSize_eq_sum lk lk.indirections]
  by_cases hs : lk.sizeOffset ≠ NSC
  · obtain ⟨ht, hN⟩ := hsize hs
    obtain ⟨m, hm⟩ : ∃ m, lk.indirections = m + 1 := ⟨lk.indirections - 1, by omega⟩
    -- the iterations before the last, then the last one with its size check
    obtain ⟨hp1, hp2⟩ := emitLoop_plain NSC slotOffset lk m
      (fun i hi h => by omega)
    have hstep := emitStep_sizeCheck NSC slotOffset lk
      ((List.range m).foldl (emitStep NSC slotOffset lk) { bytes := [], pJLECall := none })
      m ⟨hm.symm, hs⟩
    have hfold : (List.range lk.indirections).foldl (emitStep NSC slotOffset lk)
          { bytes := [], pJLECall := none }
        = emitStep NSC slotOffset lk
            ((List.range m).foldl (emitStep NSC slotOffset lk)
              { bytes := [], pJLECall := none }) m := by
      rw [hm, List.range_succ, List.foldl_append]
      rfl
    have hsizes : (List.range lk.indirections).foldl (indirectionsSizeStep lk) 0
        = indirectionsSizeStep lk ((List.range m).foldl (indirectionsSizeStep lk) 0) m := by
      rw [hm, List.range_succ, List.foldl_append]
      rfl
    rw [← hfold, hp2, ← hsizes] at hstep
    obtain ⟨hq, hlen, h7e⟩ := hstep
    generalize (List.range lk.indirections).foldl (emitStep NSC slotOffset lk)
      { bytes := [], pJLECall := none } = st at hq hlen h7e ⊢
    generalize (List.range lk.indirections).foldl (indirectionsSizeStep lk) 0 = total
      at hlen hsizes ⊢
    generalize (List.range m).foldl (indirectionsSizeStep lk) 0 = before at hq h7e hsizes
    have hbound : before + 3 ≤ total ∧ total ≤ before + 6 := by
      rw [hsizes]
      unfold indirectionsSizeStep
      split_ifs <;> omega
    simp only [ht, Bool.not_true, Bool.false_eq_true, if_false, if_true, if_pos hs, hq]
    have hb1 : (st.bytes ++ le16 0xc085 ++ le16 0x0174 ++ [some 0xC3]).length
        = total + 17 := by
      simp only [List.length_append, le16_length, List.length_cons, List.length_nil, hlen]
    refine ⟨?_, trivial, fun _ => ⟨before + 11, (total + 17 - (before + 11) - 1) % 256,
      rfl, by omega, ?_, ?_, ?_, ?_⟩⟩
    · rw [List.length_append, List.length_set, hb1, helper_length]
    · rw [List.getElem?_append_left (by rw [List.length_set, hb1]; omega),
        List.getElem?_set_ne (by omega)]
      have hidx : before + 11 - 1 = before + 10 := by omega
      rw [hidx]
      simp only [List.append_assoc]
      rw [List.getElem?_append_left (by omega)]
      exact h7e
    · rw [List.getElem?_append_left (by rw [List.length_set, hb1]; omega), hb1,
        List.getElem?_set_self (by rw [hb1]; omega)]
    · unfold jleTarget
      have hd : (total + 17 - (before + 11) - 1) % 256 = total + 5 - before := by
        rw [Nat.mod_eq_of_lt (by omega)]
        omega
      rw [hd, if_pos (by omega)]
      omega
    · rw [hb1]
      apply List.drop_left'
      rw [List.length_set, hb1]
      omega
  · have hs' : lk.sizeOffset = NSC := not_not.mp hs
    obtain ⟨hp1, hp2⟩ := emitLoop_plain NSC slotOffset lk lk.indirections
      (fun i _ h => h.2 hs')
    generalize (List.range lk.indirections).foldl (emitStep NSC slotOffset lk)
      { bytes := [], pJLECall := none } = st at hp1 hp2 ⊢
    generalize (List.range lk.indirections).foldl (indirectionsSizeStep lk) 0 = total
      at hp2 ⊢
    refine ⟨?_, ?_, fun h => absurd h hs⟩
    · cases lk.testForNull
      · simp only [Bool.not_false, if_true, List.length_append, List.length_cons,
          List.length_nil, hp2, Bool.false_eq_true, if_false, if_neg hs]
      · simp only [Bool.not_true, Bool.false_eq_true, if_false, hp1, List.length_append,
          le16_length, List.length_cons, List.length_nil, helper_length, hp2, if_true,
          if_neg hs]
    · cases lk.testForNull <;> simp

/-- C20 on the example descriptor: 42 bytes are written, `codeSize` is 42, the `jle`
displacement at offset 20 is 11 and the helper call starts at offset 32. -/
theorem CreateDictionaryLookupHelper_size_and_jle_witness :
    (CreateDictionaryLookupHelper 0xFFFF 0xE9 exampleLookup 0x10005 0x1000 0x2000).bytes.length
      = (CreateDictionaryLookupHelper 0xFFFF 0xE9 exampleLookup 0x10005 0x1000 0x2000).codeSize ∧
    (CreateDictionaryLookupHelper 0xFFFF 0xE9 exampleLookup 0x10005 0x1000 0x2000).codeSize
      = 42 ∧
    (CreateDictionaryLookupHelper 0xFFFF 0xE9 exampleLookup 0x10005 0x1000 0x2000).bytes[20]?
      = some (some 11) ∧
    jleTarget 20 11 = 32 :=
  ⟨(CreateDictionaryLookupHelper_size_and_jle 0xFFFF 0xE9 exampleLookup 0x10005 0x1000 0x2000
      (fun _ => ⟨rfl, by decide⟩)).1,
   by decide, by decide, by decide⟩

end X86Model
